import Mathlib

/-!
Verification of the stand lifecycle and discovery subsystem of
`genesis_devtools` (files `genesis_devtools/stand/models.py`,
`genesis_devtools/infra/driver/libvirt.py`,
`genesis_devtools/infra/libvirt/libvirt.py`).

The Python code is shallowly embedded: dataclasses become structures,
the libvirt XML metadata block becomes a typed list of tags, the
hypervisor becomes an explicit state record threaded through the
operations, and exceptions become `Option`/`Except` error values.
External command outcomes that are genuinely environmental
(`uuid.uuid4()`, `qemu-img create`, `cp`, `virsh start`) are supplied
by an `Env` record of oracles; the deterministic parts of `virsh`
semantics (define replaces an existing object of the same name,
starting an already-active object fails, destroy/undefine of an absent
object fails but the callers swallow that) are modelled directly.
-/

namespace Genesis

/-- An IPv4 network (Python `ipaddress.IPv4Network`): network address as a
32-bit natural plus remaining mask length.  Python's `cidr[k]` indexing and
`cidr.netmask` are modelled below; `str`/parse round-trips of the dotted-quad
form are treated as the identity. -/
structure Ipv4Net where
  base : Nat
  prefixLen : Nat
  deriving DecidableEq, Repr

/-- Number of addresses of the network (`cidr.num_addresses`). -/
def Ipv4Net.size (c : Ipv4Net) : Nat := 2 ^ (32 - c.prefixLen)

/-- `cidr.netmask` as a 32-bit natural. -/
def Ipv4Net.netmask (c : Ipv4Net) : Nat := 2 ^ 32 - 2 ^ (32 - c.prefixLen)

/-- Helper to write concrete dotted-quad addresses as naturals. -/
def ipv4 (a b c d : Nat) : Nat := ((a * 256 + b) * 256 + c) * 256 + d

/-- `models.Network`. -/
structure Network where
  name : String
  cidr : Ipv4Net
  dhcp : Bool
  managed_network : Bool
  deriving DecidableEq, Repr

/-- `Network.dummy()`: name "dummy", cidr 0.0.0.0/24, managed_network False,
dhcp default False. -/
def Network.dummy : Network :=
  { name := "dummy", cidr := { base := 0, prefixLen := 24 },
    dhcp := false, managed_network := false }

/-- `Network.is_dummy`. -/
def Network.is_dummy (n : Network) : Bool := n.name == "dummy"

/-- `models.Node` (a `Bootstrap` carries exactly the same fields; the driver
re-tags the role in metadata, so bootstraps are represented as `Node` too). -/
structure Node where
  name : String
  memory : Nat
  cores : Nat
  disks : List Nat
  image : Option String
  deriving DecidableEq, Repr

/-- `models.Stand`. -/
structure Stand where
  network : Network
  bootstraps : List Node
  baremetals : List Node
  name : String
  deriving DecidableEq, Repr

/-- `Stand.is_valid`: network not dummy, at least one bootstrap, and some
bootstrap with a resolved image. -/
def Stand.is_valid (s : Stand) : Bool :=
  if s.network.is_dummy || s.bootstraps.isEmpty then false
  else if s.bootstraps.all (fun b => b.image.isNone) then false
  else true

/-- `Stand.empty_stand(name)`. -/
def Stand.empty_stand (name : String) : Stand :=
  { network := Network.dummy, bootstraps := [], baremetals := [], name := name }

/-! ## The vendor-namespaced metadata block

`driver._tag` renders each tag as an XML snippet and `list_stands` reads it
back through `minidom`; the value-level content of the tags is modelled as a
typed inductive (the `str`/`int` serialisation of naturals and the dotted-quad
serialisation of the CIDR are exact inverses, so they are transparent here;
booleans keep their `int()`/`bool(int())` 0-1 encoding explicitly).  An
`image` tag written from a `None` value becomes a childless element, which
`_get_tag_value` reads back as `None`: hence `image : Option String`. -/
inductive MetaTag where
  | stand (v : String)
  | vcpu (v : Nat)
  | mem (v : Nat)
  | image (v : Option String)
  | nodeType (v : String)
  | net (name : String) (cidr : Ipv4Net) (managed : Nat) (dhcp : Nat)
  deriving DecidableEq, Repr

/-- First `genesis:stand` tag value, if any (`_get_tag_value`). -/
def metaStand : List MetaTag → Option String
  | [] => none
  | .stand v :: _ => some v
  | _ :: ts => metaStand ts

/-- First `genesis:node_type` tag value, if any. -/
def metaNodeType : List MetaTag → Option String
  | [] => none
  | .nodeType v :: _ => some v
  | _ :: ts => metaNodeType ts

/-- First `genesis:vcpu` tag value, if any. -/
def metaCpu : List MetaTag → Option Nat
  | [] => none
  | .vcpu v :: _ => some v
  | _ :: ts => metaCpu ts

/-- First `genesis:mem` tag value, if any. -/
def metaMem : List MetaTag → Option Nat
  | [] => none
  | .mem v :: _ => some v
  | _ :: ts => metaMem ts

/-- First `genesis:image` tag value, if any; an absent tag and a childless
tag both decode to `none`. -/
def metaImage : List MetaTag → Option String
  | [] => none
  | .image v :: _ => v
  | _ :: ts => metaImage ts

/-- First `genesis:network` tag (value and attributes), if any. -/
def metaNet : List MetaTag → Option (String × Ipv4Net × Nat × Nat)
  | [] => none
  | .net n c m d :: _ => some (n, c, m, d)
  | _ :: ts => metaNet ts

/-! ## Hypervisor objects and state -/

/-- One `<disk>` entry of a domain descriptor. -/
structure DomainDisk where
  device : String
  file : String
  format : String
  deriving DecidableEq, Repr

/-- The `<os>` boot selector: `<boot dev="hd"/>` alone, or
`<boot dev="network"/><boot dev="hd"/>`. -/
inductive BootOrder where
  | hd
  | networkHd
  deriving DecidableEq, Repr

/-- A defined libvirt domain, as rendered by `domain_template`: the fields a
later `dumpxml` can observe.  `memoryKiB` records the `memory <<= 10`
MiB-to-KiB conversion. -/
structure Domain where
  name : String
  uuid : String
  vcpu : Nat
  memoryKiB : Nat
  tags : List MetaTag
  disks : List DomainDisk
  boot : BootOrder
  ifaceType : String
  ifaceSource : String
  deriving DecidableEq, Repr

/-- A defined libvirt network, as rendered by `nat_network_template` /
`nat_network_no_dhcp_template`. -/
structure NetDescr where
  name : String
  domainName : String
  ip : Nat
  netmask : Nat
  dhcpRange : Option (Nat × Nat)
  deriving DecidableEq, Repr

/-- Host (hypervisor) state: defined domains and networks, which of them are
active or auto-starting, and the disk files present in the storage pool. -/
structure HState where
  domains : List Domain
  activeDoms : List String
  nets : List NetDescr
  activeNets : List String
  autostartNets : List String
  poolFiles : List String
  deriving DecidableEq, Repr

/-- Outcomes of the external commands that are genuinely environmental.
`uuid` is the stream of `uuid.uuid4()` results (indexed by creation call);
`qemuImgOk`/`cpOk` say whether `qemu-img create` (keyed by target path) resp.
`cp` (keyed by source image) succeeds; `startOk` gives the environmental part
of `virsh start` (a start also fails when the name is already active). -/
structure Env where
  uuid : Nat → String
  qemuImgOk : String → Bool
  cpOk : String → Bool
  startOk : String → Bool

/-- Errors: Python exception classes observed by callers. -/
inductive CErr where
  | notImplemented (msg : String)
  | valueError (msg : String)
  | typeError
  | indexError
  | calledProcess (cmd : String)
  deriving DecidableEq, Repr

/-- `c.LIBVIRT_DEF_POOL_PATH`. -/
def LIBVIRT_DEF_POOL_PATH : String := "/var/lib/libvirt/images"

/-- Characters after the last `/` of a path. -/
def lastSegment (cur : List Char) : List Char → List Char
  | [] => cur
  | c :: cs => if c = '/' then lastSegment [] cs else lastSegment (cur ++ [c]) cs

/-- `os.path.basename`. -/
def basename (p : String) : String := String.mk (lastSegment [] p.toList)

/-- Python `str.endswith`. -/
def strEndsWith (s suffix : String) : Bool :=
  let ls := s.toList
  let lt := suffix.toList
  if lt.length ≤ ls.length then ls.drop (ls.length - lt.length) == lt else false

/-- `os.path.join(pool, x)` for the absolute-pool, relative-name uses here. -/
def pathJoin (dir file : String) : String := dir ++ "/" ++ file

/-! ## Discovery (`LibvirtInfraDriver.list_stands`) -/

/-- `LibvirtInfraDriver._domain2node`: decode cpu/mem/image tags plus the
`<name>` element into a `Node`.  `int(None)` on an absent cpu or mem tag is a
`TypeError`; the disks field is not decoded (`# TODO ... Add implementation
for disks`). -/
def domain2node (d : Domain) : Except CErr Node :=
  match metaCpu d.tags, metaMem d.tags with
  | some cores, some ram =>
      .ok { name := d.name, memory := ram, cores := cores,
            image := metaImage d.tags, disks := [] }
  | _, _ => .error .typeError

/-- `LibvirtInfraDriver._extract_net_from_bootstrap`: read the network tag's
value and `cidr`/`managed_network`/`dhcp` attributes; an absent tag is an
uncaught `IndexError` (`getElementsByTagName(...)[0]`); the 0/1 attributes
are decoded with `bool(int(...))`. -/
def extract_net_from_bootstrap (d : Domain) : Except CErr Network :=
  match metaNet d.tags with
  | none => .error .indexError
  | some (n, c, m, dh) =>
      .ok { name := n, cidr := c,
            managed_network := decide (m ≠ 0), dhcp := decide (dh ≠ 0) }

/-- Keys of the accumulator dict of `list_stands`. -/
def standKeys (acc : List (String × Stand)) : List String := acc.map Prod.fst

/-- Dict lookup (`stands.get`-like part of `setdefault`). -/
def standLookup (acc : List (String × Stand)) (k : String) : Option Stand :=
  match acc.find? (fun p => p.1 == k) with
  | some p => some p.2
  | none => none

/-- Store back the (mutated-in-place in Python) accumulator entry: replace an
existing key, or append a new one, preserving insertion order. -/
def standUpsert (acc : List (String × Stand)) (k : String) (v : Stand) :
    List (String × Stand) :=
  if acc.any (fun p => p.1 == k) then
    acc.map (fun p => if p.1 == k then (k, v) else p)
  else acc ++ [(k, v)]

/-- The loop body of `list_stands` over one domain's parsed descriptor,
acting on the insertion-ordered accumulator dict. -/
def listStandsStep (acc : List (String × Stand)) (d : Domain) :
    Except CErr (List (String × Stand)) :=
  match metaStand d.tags with
  | none => .ok acc
  | some standName =>
      let st := (standLookup acc standName).getD (Stand.empty_stand standName)
      let node_type := metaNodeType d.tags
      if node_type = some "bootstrap" then
        match domain2node d, extract_net_from_bootstrap d with
        | .ok n, .ok net =>
            .ok (standUpsert acc standName
              { st with bootstraps := st.bootstraps ++ [n], network := net })
        | .error e, _ => .error e
        | _, .error e => .error e
      else if node_type = some "baremetal" then
        match domain2node d with
        | .ok n =>
            .ok (standUpsert acc standName
              { st with baremetals := st.baremetals ++ [n] })
        | .error e => .error e
      else .error (.notImplemented "Unknown node type")

/-- The whole loop of `list_stands`. -/
def listStandsAux (ds : List Domain) (acc : List (String × Stand)) :
    Except CErr (List (String × Stand)) :=
  match ds with
  | [] => .ok acc
  | d :: rest =>
      match listStandsStep acc d with
      | .ok acc' => listStandsAux rest acc'
      | .error e => .error e

/-- `LibvirtInfraDriver.list_stands`: parse every domain descriptor on the
host, group by the stand-name tag, and return `list(stands.values())`. -/
def list_stands (h : HState) : Except CErr (List Stand) :=
  (listStandsAux h.domains []).map (List.map Prod.snd)

/-! ## Hypervisor command facade (`infra/libvirt/libvirt.py`) -/

/-- `has_domain(name)`: membership in `virsh list --all --name`. -/
def has_domain (h : HState) (name : String) : Bool :=
  h.domains.any (fun d => d.name == name)

/-- Python `==` between a `Network` dataclass instance and a `str` is always
`False` (cross-type comparison returns `NotImplemented`, falling back to
identity).  The driver calls `has_net(stand.network)` with the `Network`
OBJECT rather than its name, so the membership test in the string list
returned by `list_nets()` compares with exactly this equality. -/
def pyEqNetworkStr (_net : Network) (_s : String) : Bool := false

/-- `has_net(stand.network)` as actually invoked by the driver: a `Network`
value tested for membership in the list of network name strings. -/
def has_net_obj (h : HState) (net : Network) : Bool :=
  h.nets.any (fun nd => pyEqNetworkStr net nd.name)

/-- `virsh net-define`: (re)define the named network. -/
def netDefine (h : HState) (nd : NetDescr) : HState :=
  if h.nets.any (fun x => x.name == nd.name) then
    { h with nets := h.nets.map (fun x => if x.name == nd.name then nd else x) }
  else { h with nets := h.nets ++ [nd] }

/-- `virsh net-start`: fails when the network is already active. -/
def netStart (h : HState) (name : String) : HState × Bool :=
  if h.activeNets.contains name then (h, false)
  else ({ h with activeNets := h.activeNets ++ [name] }, true)

/-- `virsh net-autostart`. -/
def netAutostart (h : HState) (name : String) : HState :=
  if h.autostartNets.contains name then h
  else { h with autostartNets := h.autostartNets ++ [name] }

/-- `cidr[k]` (Python `IPv4Network` indexing): `IndexError` out of range. -/
def cidrIndex (c : Ipv4Net) (k : Nat) : Except CErr Nat :=
  if k < c.size then .ok (c.base + k) else .error .indexError

/-- The pure descriptor synthesis inside `create_nat_network`: `net_params`
is built before the dhcp branch, so `cidr[1]`, `cidr[10]` and `cidr[100]` are
always evaluated; the no-dhcp template hardcodes `<domain name="network">`
and has no dhcp range. -/
def natNetDescr (name : String) (cidr : Ipv4Net) (dhcpEnabled : Bool) :
    Except CErr NetDescr := do
  let ip ← cidrIndex cidr 1
  let rangeStart ← cidrIndex cidr 10
  let rangeEnd ← cidrIndex cidr 100
  if dhcpEnabled then
    pure { name := name, domainName := name, ip := ip,
           netmask := cidr.netmask, dhcpRange := some (rangeStart, rangeEnd) }
  else
    pure { name := name, domainName := "network", ip := ip,
           netmask := cidr.netmask, dhcpRange := none }

/-- `create_nat_network`: render the descriptor, `net-define` it, `net-start`
it (a failure there is a `CalledProcessError`, not caught), then
`net-autostart`. -/
def create_nat_network (name : String) (cidr : Ipv4Net) (dhcpEnabled : Bool)
    (h : HState) : HState × Option CErr :=
  match natNetDescr name cidr dhcpEnabled with
  | .error e => (h, some e)
  | .ok nd =>
      let h1 := netDefine h nd
      let (h2, ok) := netStart h1 name
      if ok then (netAutostart h2 name, none)
      else (h2, some (.calledProcess "virsh net-start"))

/-- Disk file name `f"{uuid}-{i}.qcow2"` joined to the pool. -/
def diskPath (pool uuid : String) (i : Nat) : String :=
  pathJoin pool (uuid ++ "-" ++ toString i ++ ".qcow2")

/-- Device letters `f"vd{chr(ord('a') + i)}"`. -/
def devName (i : Nat) : String :=
  "vd" ++ String.singleton (Char.ofNat (97 + i))

/-- Record a file as present in the pool. -/
def addFile (h : HState) (p : String) : HState :=
  if h.poolFiles.contains p then h else { h with poolFiles := h.poolFiles ++ [p] }

/-- `sudo rm -f p`: remove a pool file (exit 0 regardless). -/
def rmFile (h : HState) (p : String) : HState :=
  { h with poolFiles := h.poolFiles.filter (fun q => q ≠ p) }

/-- `virsh define`: (re)define the named domain. -/
def defineDomain (h : HState) (d : Domain) : HState :=
  if h.domains.any (fun x => x.name == d.name) then
    { h with domains := h.domains.map (fun x => if x.name == d.name then d else x) }
  else { h with domains := h.domains ++ [d] }

/-- `virsh start name`: fails when the name is already active or the
environment refuses; on success the domain becomes active. -/
def startDomain (env : Env) (h : HState) (name : String) : HState × Bool :=
  if h.activeDoms.contains name || !env.startOk name then (h, false)
  else ({ h with activeDoms := h.activeDoms ++ [name] }, true)

/-- The `qemu-img create` loop of `create_domain`'s disk mode: allocate one
qcow2 file per requested size, collecting `disk_paths` and the rendered disk
entries; a non-zero exit (`check=True`) aborts immediately — files allocated
so far stay in the pool. -/
def allocDisks (env : Env) (pool uuid : String) :
    List Nat → Nat → HState → HState × List String × List DomainDisk × Option CErr
  | [], _, h => (h, [], [], none)
  | _size :: rest, i, h =>
      let p := diskPath pool uuid i
      if env.qemuImgOk p then
        let h1 := addFile h p
        match allocDisks env pool uuid rest (i + 1) h1 with
        | (h2, paths, entries, e) =>
            (h2, p :: paths, { device := devName i, file := p, format := "qcow2" } :: entries, e)
      else (h, [], [], some (.calledProcess "qemu-img create"))

/-- `create_domain`.  Image mode copies the base image into the pool (format
`qcow2` iff the basename ends with `"qcow2"`, else `raw`) at device `vda`;
disk mode allocates one fresh qcow2 per entry; with neither, `ValueError`.
The rendered domain is `virsh define`d and `virsh start`ed; a failure of
define/start is caught, the collected `disk_paths` are removed, and — the
`except` block does not re-raise — the function returns normally. -/
def create_domain (env : Env) (uuid name : String) (cores memory : Nat)
    (network : String) (net_type : String) (pool : String)
    (image : Option String) (disks : List Nat) (meta_tags : List MetaTag)
    (boot : String) (h : HState) : HState × Option CErr :=
  let finish : HState → List DomainDisk → List String → HState × Option CErr :=
    fun h1 entries diskPaths =>
      let dom : Domain :=
        { name := name, uuid := uuid, vcpu := cores, memoryKiB := memory * 1024,
          tags := meta_tags, disks := entries,
          boot := if boot == "hd" then .hd else .networkHd,
          ifaceType := if net_type == "network" then "network" else "bridge",
          ifaceSource := network }
      let h2 := defineDomain h1 dom
      match startDomain env h2 name with
      | (h3, true) => (h3, none)
      | (h3, false) => (diskPaths.foldl rmFile h3, none)
  match image with
  | some img =>
      let imageName := basename img
      let poolImagePath := pathJoin pool imageName
      let fmt := if strEndsWith imageName "qcow2" then "qcow2" else "raw"
      if env.cpOk img then
        finish (addFile h poolImagePath)
          [{ device := "vda", file := poolImagePath, format := fmt }] []
      else (h, some (.calledProcess "cp"))
  | none =>
      if disks.isEmpty then
        (h, some (.valueError "Either image or disks must be provided to create a domain"))
      else
        match allocDisks env pool uuid disks 0 h with
        | (h1, _, _, some e) => (h1, some e)
        | (h1, paths, entries, none) => finish h1 entries paths

/-- `get_domain_disks(name)`: `virsh dumpxml` (a `CalledProcessError` when
the domain is not defined — NOT caught by `destroy_domain`), then collect the
`<source file=...>` attributes. -/
def get_domain_disks (h : HState) (name : String) : Except CErr (List String) :=
  match h.domains.find? (fun d => d.name == name) with
  | none => .error (.calledProcess "virsh dumpxml")
  | some d => .ok (d.disks.map (fun dd => dd.file))

/-- `is_active_domain(name)`: `name not in virsh list --inactive --name`. -/
def is_active_domain (h : HState) (name : String) : Bool :=
  h.activeDoms.contains name

/-- `destroy_domain(name)`: read the domain's disks (uncaught error if it is
undefined), `virsh destroy` when active and `virsh undefine` — each with its
`CalledProcessError` swallowed — then `rm -f` each disk file. -/
def destroy_domain (h : HState) (name : String) : HState × Option CErr :=
  match get_domain_disks h name with
  | .error e => (h, some e)
  | .ok paths =>
      let h1 :=
        if is_active_domain h name then
          { h with activeDoms := h.activeDoms.filter (fun q => q ≠ name) }
        else h
      let h2 := { h1 with domains := h1.domains.filter (fun d => d.name ≠ name) }
      (paths.foldl rmFile h2, none)

/-- `destroy_net(name)`: `net-destroy` and `net-undefine`, both with their
errors swallowed — idempotent. -/
def destroy_net (h : HState) (name : String) : HState :=
  let h1 := { h with activeNets := h.activeNets.filter (fun q => q ≠ name) }
  let h2 := { h1 with nets := h1.nets.filter (fun nd => nd.name ≠ name) }
  { h2 with autostartNets := h2.autostartNets.filter (fun q => q ≠ name) }

/-! ## Infra driver orchestration (`infra/driver/libvirt.py`) -/

/-- The metadata tags the driver synthesizes for a bootstrap domain
(`create_stand` lines 145–160): stand name, vcpu, mem, image, node type, and
the network-ownership tag with `cidr`/`managed_network`/`dhcp` attributes
encoded through `int(...)`. -/
def bootstrapTags (s : Stand) (b : Node) : List MetaTag :=
  [ .stand s.name, .vcpu b.cores, .mem b.memory, .image b.image,
    .nodeType "bootstrap",
    .net s.network.name s.network.cidr
      (if s.network.managed_network then 1 else 0)
      (if s.network.dhcp then 1 else 0) ]

/-- The metadata tags for a baremetal domain (`create_stand` lines 175–180):
no image tag and no network-ownership tag. -/
def baremetalTags (s : Stand) (n : Node) : List MetaTag :=
  [ .stand s.name, .vcpu n.cores, .mem n.memory, .nodeType "baremetal" ]

/-- `"network" if stand.network.managed_network else "bridge"`. -/
def netTypeStr (net : Network) : String :=
  if net.managed_network then "network" else "bridge"

/-- The short-circuiting `any(libvirt.has_domain(n.name) for n in ...)` check
of `create_stand`, with the facade calls it issues recorded. -/
def hasDomainProbe (h : HState) : List Node → List String × Bool
  | [] => ([], false)
  | n :: ns =>
      if has_domain h n.name then (["has_domain " ++ n.name], true)
      else
        match hasDomainProbe h ns with
        | (t, b) => (("has_domain " ++ n.name) :: t, b)

/-- The bootstrap-creation loop of `create_stand`: no `disks` argument and
the default `boot="hd"`; aborts on the first error. -/
def createBootstraps (env : Env) (s : Stand) :
    List Node → Nat → HState → HState × List String × Option CErr
  | [], _, h => (h, [], none)
  | b :: bs, idx, h =>
      match create_domain env (env.uuid idx) b.name b.cores b.memory
          s.network.name (netTypeStr s.network) LIBVIRT_DEF_POOL_PATH
          b.image [] (bootstrapTags s b) "hd" h with
      | (h1, some e) => (h1, ["create_domain " ++ b.name], some e)
      | (h1, none) =>
          match createBootstraps env s bs (idx + 1) h1 with
          | (h2, t, e) => (h2, ("create_domain " ++ b.name) :: t, e)

/-- The baremetal-creation loop of `create_stand`: the node's `disks` and
`boot="network"` are passed (its `image` is passed too); aborts on the first
error. -/
def createBaremetals (env : Env) (s : Stand) :
    List Node → Nat → HState → HState × List String × Option CErr
  | [], _, h => (h, [], none)
  | n :: ns, idx, h =>
      match create_domain env (env.uuid idx) n.name n.cores n.memory
          s.network.name (netTypeStr s.network) LIBVIRT_DEF_POOL_PATH
          n.image n.disks (baremetalTags s n) "network" h with
      | (h1, some e) => (h1, ["create_domain " ++ n.name], some e)
      | (h1, none) =>
          match createBaremetals env s ns (idx + 1) h1 with
          | (h2, t, e) => (h2, ("create_domain " ++ n.name) :: t, e)

/-- `LibvirtInfraDriver.create_stand`.  Returns the final hypervisor state,
the list of facade calls issued, and the first raised error (if any). -/
def create_stand (env : Env) (s : Stand) (h : HState) :
    HState × List String × Option CErr :=
  if s.bootstraps.length > 1 then
    (h, [], some (.notImplemented "Multiple bootstraps are not supported yet"))
  else if !s.is_valid then
    (h, [], some (.valueError "stand is invalid"))
  else
    match hasDomainProbe h (s.bootstraps ++ s.baremetals) with
    | (probeTrace, true) =>
        (h, probeTrace, some (.valueError "Some domain in stand already exists"))
    | (probeTrace, false) =>
        let trace0 := probeTrace ++
          (if s.network.managed_network then ["has_net"] else [])
        if s.network.managed_network && has_net_obj h s.network then
          (h, trace0, some (.valueError "Network already exists"))
        else
          let (h1, e1) :=
            if s.network.managed_network then
              create_nat_network s.network.name s.network.cidr s.network.dhcp h
            else (h, none)
          let trace1 := trace0 ++
            (if s.network.managed_network then ["create_nat_network"] else [])
          match e1 with
          | some e => (h1, trace1, some e)
          | none =>
              match createBootstraps env s s.bootstraps 0 h1 with
              | (h2, t2, some e) => (h2, trace1 ++ t2, some e)
              | (h2, t2, none) =>
                  match createBaremetals env s s.baremetals s.bootstraps.length h2 with
                  | (h3, t3, e) => (h3, trace1 ++ t2 ++ t3, e)

/-- The domain-destruction loop of `delete_stand` over
`chain(bootstraps, baremetals)`; an exception aborts the loop. -/
def destroyNodes (h : HState) : List Node → HState × Option CErr
  | [] => (h, none)
  | n :: ns =>
      match destroy_domain h n.name with
      | (h1, some e) => (h1, some e)
      | (h1, none) => destroyNodes h1 ns

/-- `LibvirtInfraDriver.delete_stand`: destroy every node's domain, then the
network when it is managed. -/
def delete_stand (s : Stand) (h : HState) : HState × Option CErr :=
  match destroyNodes h (s.bootstraps ++ s.baremetals) with
  | (h1, some e) => (h1, some e)
  | (h1, none) =>
      if s.network.managed_network then (destroy_net h1 s.network.name, none)
      else (h1, none)

/-! ## Reconstruction shape and counting helpers -/

/-- What discovery can recover of a bootstrap node: the disks field is never
written to metadata (`# TODO ... Add implementation for disks`). -/
def reconBootstrap (n : Node) : Node :=
  { name := n.name, memory := n.memory, cores := n.cores, disks := [],
    image := n.image }

/-- What discovery can recover of a baremetal node: neither disks nor image
are written to its metadata. -/
def reconBaremetal (n : Node) : Node :=
  { name := n.name, memory := n.memory, cores := n.cores, disks := [],
    image := none }

/-- The stand that discovery reconstructs from the domains `create_stand`
synthesized. -/
def reconStand (s : Stand) : Stand :=
  { network := s.network, bootstraps := s.bootstraps.map reconBootstrap,
    baremetals := s.baremetals.map reconBaremetal, name := s.name }

/-- Node count of one stand. -/
def standCount (st : Stand) : Nat := st.bootstraps.length + st.baremetals.length

/-- Node count of the accumulator dict. -/
def accCount (acc : List (String × Stand)) : Nat :=
  (acc.map (fun p => standCount p.2)).sum

/-- Number of domains carrying a stand-name tag. -/
def taggedCount (ds : List Domain) : Nat :=
  (ds.filter (fun d => (metaStand d.tags).isSome)).length

/-! ## Concrete instances used by the closed theorems and witnesses -/

/-- An environment in which every external command succeeds. -/
def env0 : Env :=
  { uuid := fun n => "u" ++ toString n,
    qemuImgOk := fun _ => true, cpOk := fun _ => true, startOk := fun _ => true }

/-- An environment in which `virsh start d0` fails. -/
def envNoStart : Env :=
  { uuid := fun n => "u" ++ toString n,
    qemuImgOk := fun _ => true, cpOk := fun _ => true,
    startOk := fun n => !(n == "d0") }

/-- An empty hypervisor. -/
def h0 : HState :=
  { domains := [], activeDoms := [], nets := [], activeNets := [],
    autostartNets := [], poolFiles := [] }

/-- A concrete managed dhcp network on 10.20.0.0/22. -/
def net1 : Network :=
  { name := "net0", cidr := { base := ipv4 10 20 0 0, prefixLen := 22 },
    dhcp := true, managed_network := true }

/-- A concrete bootstrap node (image provisioning; note the non-empty
`disks` field, which metadata cannot carry). -/
def boot1 : Node :=
  { name := "b1", memory := 1024, cores := 2, disks := [10],
    image := some "/img/base.qcow2" }

/-- A concrete baremetal node (disk provisioning). -/
def bm1 : Node :=
  { name := "m1", memory := 2048, cores := 1, disks := [20, 40], image := none }

/-- A concrete valid single-bootstrap stand. -/
def s1 : Stand :=
  { network := net1, bootstraps := [boot1], baremetals := [bm1], name := "st1" }

/-- A valid stand with two bootstraps (both carrying images). -/
def s2 : Stand :=
  { network := net1,
    bootstraps := [boot1, { boot1 with name := "b2" }],
    baremetals := [], name := "st2" }

/-- A pre-existing network descriptor named `net0` whose content differs from
what `create_nat_network` would synthesize. -/
def preNet : NetDescr :=
  { name := "net0", domainName := "pre", ip := 0, netmask := 0, dhcpRange := none }

/-- A hypervisor on which network `net0` is already defined and active. -/
def h3pre : HState :=
  { domains := [], activeDoms := [], nets := [preNet], activeNets := ["net0"],
    autostartNets := [], poolFiles := [] }

/-- A hypervisor on which a domain named `m1` is already defined and active,
so that a subsequent `virsh start m1` fails. -/
def h4pre : HState :=
  { domains := [{ name := "m1", uuid := "w", vcpu := 1, memoryKiB := 1024,
                  tags := [], disks := [], boot := .hd,
                  ifaceType := "network", ifaceSource := "n" }],
    activeDoms := ["m1"], nets := [], activeNets := [],
    autostartNets := [], poolFiles := [] }

/-- An unmanaged (bridge) network, used by witnesses that avoid the network
creation path. -/
def netBr : Network :=
  { name := "br0", cidr := { base := ipv4 192 168 1 0, prefixLen := 24 },
    dhcp := false, managed_network := false }

/-- A valid single-bootstrap stand on the bridge network. -/
def s3 : Stand :=
  { network := netBr,
    bootstraps := [{ name := "b3", memory := 512, cores := 1, disks := [],
                     image := some "/img/os.raw" }],
    baremetals := [{ name := "m3", memory := 256, cores := 1, disks := [5],
                     image := none }],
    name := "st3" }

/-- A domain carrying no genesis metadata at all (an unrelated user VM). -/
def userDom : Domain :=
  { name := "user-vm", uuid := "uu", vcpu := 4, memoryKiB := 4096,
    tags := [], disks := [], boot := .hd,
    ifaceType := "bridge", ifaceSource := "br0" }

/-- A well-tagged baremetal domain of stand `stA`. -/
def domA : Domain :=
  { name := "a1", uuid := "ua", vcpu := 1, memoryKiB := 1024,
    tags := [.stand "stA", .vcpu 1, .mem 1, .nodeType "baremetal"],
    disks := [], boot := .networkHd, ifaceType := "network", ifaceSource := "n" }

/-- A second well-tagged baremetal domain of stand `stA`. -/
def domA2 : Domain :=
  { name := "a2", uuid := "ua2", vcpu := 2, memoryKiB := 2048,
    tags := [.stand "stA", .vcpu 2, .mem 2, .nodeType "baremetal"],
    disks := [], boot := .networkHd, ifaceType := "network", ifaceSource := "n" }

/-- A well-tagged baremetal domain of stand `stB`. -/
def domB : Domain :=
  { name := "bdom", uuid := "ub", vcpu := 1, memoryKiB := 1024,
    tags := [.stand "stB", .vcpu 1, .mem 1, .nodeType "baremetal"],
    disks := [], boot := .networkHd, ifaceType := "network", ifaceSource := "n" }

/-- A host carrying the tagged domains of two stands plus a user VM. -/
def h10 : HState :=
  { domains := [domA, userDom, domB, domA2], activeDoms := [],
    nets := [], activeNets := [], autostartNets := [], poolFiles := [] }

/-! ## Claim theorems -/

/-- Claim C5: a stand with two or more bootstraps is rejected with the
"Multiple bootstraps are not supported yet" `NotImplementedError`, with zero
facade calls issued and the hypervisor state unchanged. -/
theorem C5_multi_bootstrap_rejected (env : Env) (s : Stand) (h : HState)
    (hmulti : 1 < s.bootstraps.length) :
    create_stand env s h =
      (h, [], some (.notImplemented "Multiple bootstraps are not supported yet")) := by
  unfold create_stand
  simp [hmulti]

/-- Claim C5 witness: the rejection evaluated on the concrete two-bootstrap
stand `s2` and the empty hypervisor. -/
theorem C5_multi_bootstrap_rejected_witness :
    create_stand env0 s2 h0 =
      (h0, [], some (.notImplemented "Multiple bootstraps are not supported yet")) :=
  C5_multi_bootstrap_rejected env0 s2 h0 (by decide)

/-- Claim C2 (code bug): `delete_stand` is not idempotent.  On the concrete
stand `s1`, the first call (after `create_stand`) completes without error,
but the second call raises: `destroy_domain` first runs
`virsh dumpxml <name>` via `get_domain_disks`, whose `CalledProcessError` on
the now-undefined domain is not caught. -/
theorem C2_second_delete_raises :
    (delete_stand s1 (create_stand env0 s1 h0).1).2 = none ∧
    (delete_stand s1 (delete_stand s1 (create_stand env0 s1 h0).1).1).2 =
      some (.calledProcess "virsh dumpxml") :=
  ⟨rfl, rfl⟩

/-- Claim C3 (code bug): with the managed network `net0` of stand `s1`
already defined (and active) on the host, `create_stand` does NOT report the
conflict `ValueError`: `has_net(stand.network)` compares a `Network` object
against name strings and is always `False`, so the driver proceeds to
`create_nat_network`, mutating the hypervisor (`net-define` replaces the
existing definition) and then failing with the uncaught
`CalledProcessError` of `virsh net-start`. -/
theorem C3_conflict_unreported :
    s1.network.managed_network = true ∧
    h3pre.nets.map NetDescr.name = [s1.network.name] ∧
    has_net_obj h3pre s1.network = false ∧
    (create_stand env0 s1 h3pre).2.2 = some (.calledProcess "virsh net-start") ∧
    ((create_stand env0 s1 h3pre).1 == h3pre) = false :=
  ⟨rfl, rfl, rfl, rfl, rfl⟩

/-- Claim C9: descriptor synthesis by provisioning mode, evaluated on the
spec's examples.  `disks=[20,40]`, no image: two freshly created qcow2 disks
at `vda`/`vdb`, network-then-hd boot, both files allocated in the pool;
`image=/img/base.qcow2`: one qcow2 disk (format from the filename ending) at
`vda`, hd-only boot; neither image nor disks: `ValueError`. -/
theorem C9_disk_boot_selection :
    (create_domain env0 "u0" "bm0" 1 1024 "net0" "network" LIBVIRT_DEF_POOL_PATH
        none [20, 40] [] "network" h0).2 = none ∧
    (create_domain env0 "u0" "bm0" 1 1024 "net0" "network" LIBVIRT_DEF_POOL_PATH
        none [20, 40] [] "network" h0).1.domains =
      [{ name := "bm0", uuid := "u0", vcpu := 1, memoryKiB := 1048576, tags := [],
         disks := [{ device := "vda", file := "/var/lib/libvirt/images/u0-0.qcow2",
                     format := "qcow2" },
                   { device := "vdb", file := "/var/lib/libvirt/images/u0-1.qcow2",
                     format := "qcow2" }],
         boot := .networkHd, ifaceType := "network", ifaceSource := "net0" }] ∧
    (create_domain env0 "u0" "bm0" 1 1024 "net0" "network" LIBVIRT_DEF_POOL_PATH
        none [20, 40] [] "network" h0).1.poolFiles =
      ["/var/lib/libvirt/images/u0-0.qcow2", "/var/lib/libvirt/images/u0-1.qcow2"] ∧
    (create_domain env0 "u1" "bs0" 2 2048 "net0" "network" LIBVIRT_DEF_POOL_PATH
        (some "/img/base.qcow2") [] [] "hd" h0).2 = none ∧
    (create_domain env0 "u1" "bs0" 2 2048 "net0" "network" LIBVIRT_DEF_POOL_PATH
        (some "/img/base.qcow2") [] [] "hd" h0).1.domains =
      [{ name := "bs0", uuid := "u1", vcpu := 2, memoryKiB := 2097152, tags := [],
         disks := [{ device := "vda", file := "/var/lib/libvirt/images/base.qcow2",
                     format := "qcow2" }],
         boot := .hd, ifaceType := "network", ifaceSource := "net0" }] ∧
    (create_domain env0 "u2" "n2" 1 512 "net0" "network" LIBVIRT_DEF_POOL_PATH
        none [] [] "hd" h0) =
      (h0, some (.valueError "Either image or disks must be provided to create a domain")) :=
  ⟨rfl, rfl, rfl, rfl, rfl, rfl⟩

/-- Claim C4 counterexample: in disk mode with the domain name `m1` already
active, both disks are allocated, the define/start step fails, the allocated
files are removed again — and `create_domain` returns with NO error: the
failure is not surfaced to the caller, contradicting the claim. -/
theorem C4_counterexample :
    is_active_domain h4pre "m1" = true ∧
    (create_domain env0 "u7" "m1" 1 1024 "net0" "network" LIBVIRT_DEF_POOL_PATH
        none [10, 20] [] "network" h4pre).2 = none ∧
    (create_domain env0 "u7" "m1" 1 1024 "net0" "network" LIBVIRT_DEF_POOL_PATH
        none [10, 20] [] "network" h4pre).1.poolFiles = [] :=
  ⟨rfl, rfl, rfl⟩

/-! ## Helper lemmas -/

/-- Skipping a domain with no stand tag: one untagged domain anywhere in the
enumeration leaves the whole discovery loop unchanged. -/
theorem listStandsAux_untagged (d : Domain) (hd : metaStand d.tags = none)
    (ds1 : List Domain) :
    ∀ (ds2 : List Domain) (acc : List (String × Stand)),
    listStandsAux (ds1 ++ d :: ds2) acc = listStandsAux (ds1 ++ ds2) acc := by
  induction ds1 with
  | nil =>
      intro ds2 acc
      simp [listStandsAux, listStandsStep, hd]
  | cons x xs ih =>
      intro ds2 acc
      simp only [List.cons_append, listStandsAux]
      cases hstep : listStandsStep acc x with
      | ok acc' => exact ih ds2 acc'
      | error e => rfl

/-- Claim C6: a domain carrying no stand-name metadata tag contributes
nothing to `list_stands` — removing it from the host's domain list leaves
the result unchanged (so it creates no stand entry and lands in no stand). -/
theorem C6_untagged_ignored (h : HState) (ds1 ds2 : List Domain) (d : Domain)
    (hd : metaStand d.tags = none) (hdoms : h.domains = ds1 ++ d :: ds2) :
    list_stands h = list_stands { h with domains := ds1 ++ ds2 } := by
  unfold list_stands
  rw [hdoms, listStandsAux_untagged d hd ds1 ds2]

/-- Claim C6 witness: the untagged user VM `userDom` on host `h10` is
invisible to discovery. -/
theorem C6_untagged_ignored_witness :
    list_stands h10 = list_stands { h10 with domains := [domA, domB, domA2] } :=
  C6_untagged_ignored h10 [domA] [domB, domA2] userDom rfl rfl

/-- Claim C8: the synthesized NAT network descriptor uses `cidr[1]` as its
address, and when DHCP is enabled the pool runs from `cidr[10]` to
`cidr[100]`, with no pool when DHCP is disabled; concretely, `10.20.0.0/22`
with DHCP gives gateway `10.20.0.1` and pool `10.20.0.10`–`10.20.0.100`. -/
theorem C8_net_offsets :
    (∀ (name : String) (cidr : Ipv4Net) (dhcpEnabled : Bool) (d : NetDescr),
      natNetDescr name cidr dhcpEnabled = .ok d →
        d.ip = cidr.base + 1 ∧
        d.dhcpRange =
          if dhcpEnabled then some (cidr.base + 10, cidr.base + 100) else none) ∧
    natNetDescr "genesis-net" { base := ipv4 10 20 0 0, prefixLen := 22 } true =
      .ok { name := "genesis-net", domainName := "genesis-net",
            ip := ipv4 10 20 0 1, netmask := ipv4 255 255 252 0,
            dhcpRange := some (ipv4 10 20 0 10, ipv4 10 20 0 100) } := by
  constructor
  · intro name cidr dh d hok
    by_cases h1 : 1 < cidr.size
    · by_cases h2 : 10 < cidr.size
      · by_cases h3 : 100 < cidr.size
        · simp only [natNetDescr, cidrIndex, h1, h2, h3, if_true, bind,
            Except.bind, pure, Except.pure] at hok
          cases dh with
          | true =>
              simp only [if_true, Except.ok.injEq] at hok
              subst hok
              exact ⟨rfl, rfl⟩
          | false =>
              simp only [Bool.false_eq_true, if_false, Except.ok.injEq] at hok
              subst hok
              exact ⟨rfl, rfl⟩
        · simp [natNetDescr, cidrIndex, h1, h2, h3, bind, Except.bind] at hok
      · simp [natNetDescr, cidrIndex, h1, h2, bind, Except.bind] at hok
    · simp [natNetDescr, cidrIndex, h1, bind, Except.bind] at hok
  · rfl

/-- Claim C8 witness: the general offset property applied to a concrete
DHCP-disabled network `0.0.0.0/24`. -/
theorem C8_net_offsets_witness :
    ∃ d, natNetDescr "n" { base := 0, prefixLen := 24 } false = .ok d ∧
      d.ip = 1 ∧ d.dhcpRange = none := by
  refine ⟨{ name := "n", domainName := "network", ip := 1,
            netmask := ipv4 255 255 255 0, dhcpRange := none }, rfl, ?_, ?_⟩
  · exact (C8_net_offsets.1 "n" { base := 0, prefixLen := 24 } false _ rfl).1
  · exact (C8_net_offsets.1 "n" { base := 0, prefixLen := 24 } false _ rfl).2

/-- `addFile` only touches the pool. -/
theorem addFile_domains (h : HState) (p : String) :
    (addFile h p).domains = h.domains := by
  unfold addFile; split <;> rfl

/-- `addFile` only touches the pool (active domains unchanged). -/
theorem addFile_activeDoms (h : HState) (p : String) :
    (addFile h p).activeDoms = h.activeDoms := by
  unfold addFile; split <;> rfl

/-- `defineDomain` only touches the defined-domain list. -/
theorem defineDomain_activeDoms (h : HState) (d : Domain) :
    (defineDomain h d).activeDoms = h.activeDoms := by
  unfold defineDomain; split <;> rfl

/-- `defineDomain` only touches the defined-domain list (pool unchanged). -/
theorem defineDomain_poolFiles (h : HState) (d : Domain) :
    (defineDomain h d).poolFiles = h.poolFiles := by
  unfold defineDomain; split <;> rfl

/-- Removing a file removes it. -/
theorem not_mem_rmFile (h : HState) (p : String) :
    p ∉ (rmFile h p).poolFiles := by
  simp [rmFile]

/-- Removing some file never adds another. -/
theorem not_mem_rmFile_mono (h : HState) (p q : String)
    (hn : p ∉ h.poolFiles) : p ∉ (rmFile h q).poolFiles := by
  intro hmem
  exact hn (List.mem_of_mem_filter hmem)

/-- Absence from the pool is preserved along a sequence of removals. -/
theorem foldl_rmFile_preserves (p : String) (paths : List String) :
    ∀ h : HState, p ∉ h.poolFiles → p ∉ (paths.foldl rmFile h).poolFiles := by
  induction paths with
  | nil => intro h hn; exact hn
  | cons q rest ih =>
      intro h hn
      exact ih (rmFile h q) (not_mem_rmFile_mono h p q hn)

/-- Every removed path is absent from the final pool. -/
theorem foldl_rmFile_removes (p : String) (paths : List String) :
    ∀ h : HState, p ∈ paths → p ∉ (paths.foldl rmFile h).poolFiles := by
  induction paths with
  | nil => intro h hmem; cases hmem
  | cons q rest ih =>
      intro h hmem
      rcases List.mem_cons.mp hmem with hpq | hrest
      · subst hpq
        exact foldl_rmFile_preserves p rest (rmFile h p) (not_mem_rmFile h p)
      · exact ih (rmFile h q) hrest

/-- A successful `qemu-img` loop: the allocated paths are exactly
`diskPath pool uuid (i + j)` for `j` below the number of requested disks,
and neither the defined domains nor the active domains change. -/
theorem allocDisks_ok (env : Env) (pool uuid : String) (sizes : List Nat) :
    ∀ (i : Nat) (h : HState),
    (∀ j, j < sizes.length → env.qemuImgOk (diskPath pool uuid (i + j)) = true) →
    ∃ h1 entries,
      allocDisks env pool uuid sizes i h =
        (h1, (List.range sizes.length).map (fun j => diskPath pool uuid (i + j)),
         entries, none) ∧
      h1.domains = h.domains ∧ h1.activeDoms = h.activeDoms := by
  induction sizes with
  | nil =>
      intro i h _
      exact ⟨h, [], rfl, rfl, rfl⟩
  | cons sz rest ih =>
      intro i h hok
      have h0 : env.qemuImgOk (diskPath pool uuid i) = true := by
        have := hok 0 (by simp)
        simpa using this
      obtain ⟨h1, entries, heq, hdom, hact⟩ :=
        ih (i + 1) (addFile h (diskPath pool uuid i)) (fun j hj => by
          have hlt : j + 1 < (sz :: rest).length := by
            simpa using Nat.succ_lt_succ hj
          have := hok (j + 1) hlt
          have harith : i + (j + 1) = i + 1 + j := by omega
          rwa [harith] at this)
      refine ⟨h1, { device := devName i, file := diskPath pool uuid i,
                    format := "qcow2" } :: entries, ?_, ?_, ?_⟩
      · show allocDisks env pool uuid (sz :: rest) i h = _
        unfold allocDisks
        simp only [h0, if_true, heq]
        have hpaths :
            diskPath pool uuid i ::
              (List.range rest.length).map (fun j => diskPath pool uuid (i + 1 + j)) =
            (List.range (sz :: rest).length).map (fun j => diskPath pool uuid (i + j)) := by
          simp only [List.length_cons, List.range_succ_eq_map, List.map_cons,
            List.map_map]
          refine congrArg₂ List.cons (by simp) ?_
          refine List.map_congr_left ?_
          intro j _
          show diskPath pool uuid (i + 1 + j) = diskPath pool uuid (i + Nat.succ j)
          have : i + 1 + j = i + Nat.succ j := by omega
          rw [this]
        rw [← hpaths]
      · rw [hdom, addFile_domains]
      · rw [hact, addFile_activeDoms]

/-- `virsh start` fails (state unchanged) when the name is already active or
the environment refuses. -/
theorem startDomain_fail (env : Env) (h : HState) (name : String)
    (hf : (h.activeDoms.contains name || !env.startOk name) = true) :
    startDomain env h name = (h, false) := by
  unfold startDomain
  rw [if_pos hf]

/-- Claim C4 (amended): in disk mode, when every disk allocation succeeds
but the define/start step fails (the name is already active or the
environment refuses the start), `create_domain` removes every allocated disk
file from the pool and returns WITHOUT surfacing an error. -/
theorem C4_cleanup_swallows (env : Env) (uuid name : String)
    (cores memory : Nat) (network net_type pool : String)
    (tags : List MetaTag) (boot : String) (h : HState) (disks : List Nat)
    (hne : disks ≠ [])
    (halloc : ∀ j, j < disks.length → env.qemuImgOk (diskPath pool uuid j) = true)
    (hfail : name ∈ h.activeDoms ∨ env.startOk name = false) :
    (create_domain env uuid name cores memory network net_type pool
        none disks tags boot h).2 = none ∧
    ∀ j, j < disks.length →
      diskPath pool uuid j ∉
        (create_domain env uuid name cores memory network net_type pool
            none disks tags boot h).1.poolFiles := by
  obtain ⟨h1, entries, heq, hdom, hact⟩ :=
    allocDisks_ok env pool uuid disks 0 h (by simpa using halloc)
  cases disks with
  | nil => exact absurd rfl hne
  | cons d0 drest =>
      have hcond : ∀ dom : Domain,
          ((defineDomain h1 dom).activeDoms.contains name
            || !env.startOk name) = true := by
        intro dom
        rw [defineDomain_activeDoms, hact]
        rcases hfail with hmem | hok
        · simp [List.contains, hmem]
        · simp [hok]
      simp only [create_domain, List.isEmpty_cons, heq]
      rw [startDomain_fail env _ name (hcond _)]
      refine ⟨rfl, ?_⟩
      intro j hj
      apply foldl_rmFile_removes
      have hmemp : diskPath pool uuid j ∈
          (List.range (d0 :: drest).length).map
            (fun k => diskPath pool uuid (0 + k)) := by
        refine List.mem_map.mpr ⟨j, List.mem_range.mpr hj, by simp⟩
      simpa using hmemp

/-- Membership in the accumulator dict's key test. -/
theorem any_key_iff (acc : List (String × Stand)) (k : String) :
    acc.any (fun p => p.1 == k) = true ↔ k ∈ standKeys acc := by
  rw [List.any_eq_true]
  constructor
  · rintro ⟨p, hp, hb⟩
    exact List.mem_map.mpr ⟨p, hp, beq_iff_eq.mp hb⟩
  · intro hk
    obtain ⟨p, hp, he⟩ := List.mem_map.mp hk
    exact ⟨p, hp, beq_iff_eq.mpr he⟩

/-- Every entry of an upserted accumulator is the new entry or an old one. -/
theorem mem_standUpsert (acc : List (String × Stand)) (k : String) (v : Stand) :
    ∀ q ∈ standUpsert acc k v, q = (k, v) ∨ q ∈ acc := by
  intro q hq
  unfold standUpsert at hq
  split at hq
  · obtain ⟨p, hp, hpe⟩ := List.mem_map.mp hq
    by_cases hb : p.1 = k
    · left; rw [← hpe]; simp [hb]
    · right; rw [← hpe]; simp [hb]; exact hp
  · rcases List.mem_append.mp hq with hmem | hmem
    · right; exact hmem
    · left; simpa using hmem

/-- Upserting an existing key leaves the key list unchanged. -/
theorem standKeys_upsert_mem (acc : List (String × Stand)) (k : String)
    (v : Stand) (hk : k ∈ standKeys acc) :
    standKeys (standUpsert acc k v) = standKeys acc := by
  unfold standUpsert
  rw [if_pos ((any_key_iff acc k).mpr hk)]
  simp only [standKeys, List.map_map]
  refine List.map_congr_left ?_
  intro p _
  by_cases hb : p.1 = k <;> simp [Function.comp, hb]

/-- Upserting a fresh key appends it to the key list. -/
theorem standKeys_upsert_not_mem (acc : List (String × Stand)) (k : String)
    (v : Stand) (hk : k ∉ standKeys acc) :
    standKeys (standUpsert acc k v) = standKeys acc ++ [k] := by
  unfold standUpsert
  rw [if_neg (fun hc => hk ((any_key_iff acc k).mp hc))]
  simp [standKeys]

/-- Upserting under a mismatching head commutes with the cons. -/
theorem standUpsert_cons (p : String × Stand) (acc : List (String × Stand))
    (k : String) (v : Stand) (hp : p.1 ≠ k) :
    standUpsert (p :: acc) k v = p :: standUpsert acc k v := by
  unfold standUpsert
  have hhead : (p.1 == k) = false := by simpa using hp
  by_cases hany : acc.any (fun q => q.1 == k) = true
  · rw [if_pos (by simp [List.any_cons, hany]), if_pos hany]
    simp only [List.map_cons]
    rw [if_neg (by simp [hp])]
  · rw [if_neg (by simp [List.any_cons, hany, hhead]), if_neg hany]
    simp

/-- Looking up the head's key. -/
theorem standLookup_cons_self (p : String × Stand) (acc : List (String × Stand))
    (k : String) (hp : p.1 = k) : standLookup (p :: acc) k = some p.2 := by
  unfold standLookup
  rw [List.find?_cons_of_pos _ (by simpa using hp)]

/-- Looking up past a mismatching head. -/
theorem standLookup_cons_ne (p : String × Stand) (acc : List (String × Stand))
    (k : String) (hp : p.1 ≠ k) : standLookup (p :: acc) k = standLookup acc k := by
  unfold standLookup
  rw [List.find?_cons_of_neg _ (by simpa using hp)]

/-- The accumulator entry found for a key has that key as its stand name
(using the name-is-key invariant; for a fresh key this is `empty_stand`). -/
theorem standLookup_getD_name (acc : List (String × Stand)) (k : String)
    (hI1 : ∀ p ∈ acc, p.2.name = p.1) :
    ((standLookup acc k).getD (Stand.empty_stand k)).name = k := by
  unfold standLookup
  cases hf : acc.find? (fun p => p.1 == k) with
  | none => rfl
  | some p =>
      have hmem := List.mem_of_find?_eq_some hf
      have hpk := List.find?_some hf
      have hname := hI1 p hmem
      simp only [beq_iff_eq] at hpk
      simp only [Option.getD_some]
      rw [hname, hpk]

/-- Replacing a key that is absent from an accumulator is the identity. -/
theorem map_upsert_skip (acc : List (String × Stand)) (k : String) (v : Stand)
    (hk : k ∉ standKeys acc) :
    acc.map (fun q => if q.1 == k then (k, v) else q) = acc := by
  have hpt : ∀ q ∈ acc, (if q.1 == k then (k, v) else q) = q := by
    intro q hq
    rw [if_neg]
    simp only [beq_iff_eq]
    intro he
    exact hk (he ▸ List.mem_map.mpr ⟨q, hq, rfl⟩)
  calc acc.map (fun q => if q.1 == k then (k, v) else q)
      = acc.map id := List.map_congr_left hpt
    _ = acc := List.map_id acc

/-- Additive counting identity for one upsert: the node count of the new
accumulator plus the replaced entry's count equals the old count plus the
new entry's count. -/
theorem accCount_upsert (acc : List (String × Stand)) (k : String) (v : Stand)
    (hI2 : (standKeys acc).Nodup) :
    accCount (standUpsert acc k v) +
      standCount ((standLookup acc k).getD (Stand.empty_stand k)) =
    accCount acc + standCount v := by
  induction acc with
  | nil =>
      show accCount [(k, v)] + standCount (Stand.empty_stand k) = 0 + standCount v
      simp [accCount, standCount, Stand.empty_stand]
  | cons p acc ih =>
      have hI2t : (standKeys acc).Nodup := (List.nodup_cons.mp hI2).2
      have hpnot : p.1 ∉ standKeys acc := (List.nodup_cons.mp hI2).1
      by_cases hp : p.1 = k
      · rw [standLookup_cons_self p acc k hp]
        have hknot : k ∉ standKeys acc := hp ▸ hpnot
        have hups : standUpsert (p :: acc) k v = (k, v) :: acc := by
          unfold standUpsert
          rw [if_pos (by simp [List.any_cons, hp])]
          simp only [List.map_cons]
          rw [if_pos (beq_iff_eq.mpr hp), map_upsert_skip acc k v hknot]
        rw [hups]
        simp [accCount]
        omega
      · rw [standLookup_cons_ne p acc k hp, standUpsert_cons p acc k v hp]
        have := ih hI2t
        simp only [accCount, List.map_cons, List.sum_cons] at this ⊢
        omega

/-- All invariant bookkeeping for one tagged-domain step of the discovery
loop: upserting an entry whose name is its key and whose node count grew by
one preserves the name-is-key invariant and key distinctness, adds exactly
one to the total node count, only grows the key set, and adds at most the
key `t` to it. -/
theorem step_upsert_facts (acc : List (String × Stand)) (t : String)
    (st' : Stand) (hname : st'.name = t)
    (hcount : standCount st' =
      standCount ((standLookup acc t).getD (Stand.empty_stand t)) + 1)
    (hI1 : ∀ p ∈ acc, p.2.name = p.1) (hI2 : (standKeys acc).Nodup) :
    (∀ p ∈ standUpsert acc t st', p.2.name = p.1) ∧
    (standKeys (standUpsert acc t st')).Nodup ∧
    accCount (standUpsert acc t st') = accCount acc + 1 ∧
    (∀ k, k ∈ standKeys acc → k ∈ standKeys (standUpsert acc t st')) ∧
    t ∈ standKeys (standUpsert acc t st') ∧
    (∀ k, k ∈ standKeys (standUpsert acc t st') → k ∈ standKeys acc ∨ k = t) := by
  have hkeys :
      standKeys (standUpsert acc t st') = standKeys acc ∨
      standKeys (standUpsert acc t st') = standKeys acc ++ [t] := by
    by_cases hmem : t ∈ standKeys acc
    · exact Or.inl (standKeys_upsert_mem acc t st' hmem)
    · exact Or.inr (standKeys_upsert_not_mem acc t st' hmem)
  refine ⟨?_, ?_, ?_, ?_, ?_, ?_⟩
  · intro p hp
    rcases mem_standUpsert acc t st' p hp with he | hmem
    · rw [he]; exact hname
    · exact hI1 p hmem
  · by_cases hmem : t ∈ standKeys acc
    · rw [standKeys_upsert_mem acc t st' hmem]; exact hI2
    · rw [standKeys_upsert_not_mem acc t st' hmem]
      exact List.nodup_append.mpr
        ⟨hI2, List.nodup_singleton t, by simpa using hmem⟩
  · have := accCount_upsert acc t st' hI2
    omega
  · intro k hk
    rcases hkeys with he | he <;> rw [he]
    · exact hk
    · exact List.mem_append.mpr (Or.inl hk)
  · by_cases hmem : t ∈ standKeys acc
    · rw [standKeys_upsert_mem acc t st' hmem]; exact hmem
    · rw [standKeys_upsert_not_mem acc t st' hmem]; simp
  · intro k hk
    rcases hkeys with he | he <;> rw [he] at hk
    · exact Or.inl hk
    · rcases List.mem_append.mp hk with hmem | hmem
      · exact Or.inl hmem
      · exact Or.inr (by simpa using hmem)

/-- Claim C4 (amended) witness: two disks, start of `d0` refused by the
environment — no error, both files gone. -/
theorem C4_cleanup_swallows_witness :
    (create_domain envNoStart "u9" "d0" 1 1024 "net0" "network"
        LIBVIRT_DEF_POOL_PATH none [10, 20] [] "network" h0).2 = none ∧
    ∀ j, j < 2 →
      diskPath LIBVIRT_DEF_POOL_PATH "u9" j ∉
        (create_domain envNoStart "u9" "d0" 1 1024 "net0" "network"
            LIBVIRT_DEF_POOL_PATH none [10, 20] [] "network" h0).1.poolFiles :=
  C4_cleanup_swallows envNoStart "u9" "d0" 1 1024 "net0" "network"
    LIBVIRT_DEF_POOL_PATH [] "network" h0 [10, 20]
    (by decide) (fun _ _ => rfl) (Or.inr rfl)

/-- The discovery loop invariant: starting from an accumulator whose
entries' names equal their keys and whose keys are distinct, a successful
run preserves both, adds exactly one node per tagged domain to the total
count, only grows the key set, reaches every processed tag, and introduces
no key that is neither an old key nor a processed tag. -/
theorem listStandsAux_inv (ds : List Domain) :
    ∀ (acc res : List (String × Stand)),
    listStandsAux ds acc = .ok res →
    (∀ p ∈ acc, p.2.name = p.1) → (standKeys acc).Nodup →
    (∀ p ∈ res, p.2.name = p.1) ∧
    (standKeys res).Nodup ∧
    accCount res = accCount acc + taggedCount ds ∧
    (∀ k, k ∈ standKeys acc → k ∈ standKeys res) ∧
    (∀ d ∈ ds, ∀ t, metaStand d.tags = some t → t ∈ standKeys res) ∧
    (∀ k, k ∈ standKeys res →
      k ∈ standKeys acc ∨ ∃ d ∈ ds, metaStand d.tags = some k) := by
  induction ds with
  | nil =>
      intro acc res hok hI1 hI2
      have hae : acc = res := by
        simpa [listStandsAux] using hok
      subst hae
      exact ⟨hI1, hI2, by simp [taggedCount], fun k hk => hk, by simp,
        fun k hk => Or.inl hk⟩
  | cons d rest ih =>
      intro acc res hok hI1 hI2
      cases hms : metaStand d.tags with
      | none =>
          have hstep : listStandsStep acc d = .ok acc := by
            simp [listStandsStep, hms]
          simp only [listStandsAux, hstep] at hok
          obtain ⟨a1, a2, a3, a4, a5, a6⟩ := ih acc res hok hI1 hI2
          refine ⟨a1, a2, ?_, a4, ?_, ?_⟩
          · rw [a3]; simp [taggedCount, hms]
          · intro d' hd' t ht
            rcases List.mem_cons.mp hd' with he | hmem
            · subst he; rw [hms] at ht; cases ht
            · exact a5 d' hmem t ht
          · intro k hk
            rcases a6 k hk with hl | ⟨d', hd', ht⟩
            · exact Or.inl hl
            · exact Or.inr ⟨d', List.mem_cons_of_mem d hd', ht⟩
      | some t =>
          -- one tagged step, then the IH on the upserted accumulator
          have hcontinue :
            ∀ st' : Stand, st'.name = t →
            standCount st' =
              standCount ((standLookup acc t).getD (Stand.empty_stand t)) + 1 →
            listStandsAux rest (standUpsert acc t st') = .ok res →
            (∀ p ∈ res, p.2.name = p.1) ∧
            (standKeys res).Nodup ∧
            accCount res = accCount acc + taggedCount (d :: rest) ∧
            (∀ k, k ∈ standKeys acc → k ∈ standKeys res) ∧
            (∀ d' ∈ d :: rest, ∀ t', metaStand d'.tags = some t' →
              t' ∈ standKeys res) ∧
            (∀ k, k ∈ standKeys res →
              k ∈ standKeys acc ∨ ∃ d' ∈ d :: rest, metaStand d'.tags = some k) := by
            intro st' hname hcount hrest
            obtain ⟨u1, u2, u3, u4, u5, u6⟩ :=
              step_upsert_facts acc t st' hname hcount hI1 hI2
            obtain ⟨a1, a2, a3, a4, a5, a6⟩ :=
              ih (standUpsert acc t st') res hrest u1 u2
            refine ⟨a1, a2, ?_, fun k hk => a4 k (u4 k hk), ?_, ?_⟩
            · rw [a3, u3]; simp [taggedCount, hms]; omega
            · intro d' hd' t' ht'
              rcases List.mem_cons.mp hd' with he | hmem
              · subst he; rw [hms] at ht'; cases ht'; exact a4 t u5
              · exact a5 d' hmem t' ht'
            · intro k hk
              rcases a6 k hk with hl | ⟨d', hd', ht⟩
              · rcases u6 k hl with hll | he
                · exact Or.inl hll
                · exact Or.inr ⟨d, List.mem_cons_self d rest, he ▸ hms⟩
              · exact Or.inr ⟨d', List.mem_cons_of_mem d hd', ht⟩
          by_cases hb : metaNodeType d.tags = some "bootstrap"
          · cases hdn : domain2node d with
            | error e =>
                simp only [listStandsAux, listStandsStep, hms, hb, if_true,
                  hdn] at hok
                cases hok
            | ok n =>
                cases hen : extract_net_from_bootstrap d with
                | error e =>
                    simp only [listStandsAux, listStandsStep, hms, hb, if_true,
                      hdn, hen] at hok
                    cases hok
                | ok net =>
                    simp only [listStandsAux, listStandsStep, hms, hb, if_true,
                      hdn, hen] at hok
                    refine hcontinue _ ?_ ?_ hok
                    · exact standLookup_getD_name acc t hI1
                    · simp [standCount]
                      omega
          · by_cases hb2 : metaNodeType d.tags = some "baremetal"
            · cases hdn : domain2node d with
              | error e =>
                  simp only [listStandsAux, listStandsStep, hms, hb, hb2,
                    if_false, if_true, hdn] at hok
                  cases hok
              | ok n =>
                  simp only [listStandsAux, listStandsStep, hms, hb, hb2,
                    if_false, if_true, hdn] at hok
                  refine hcontinue _ ?_ ?_ hok
                  · exact standLookup_getD_name acc t hI1
                  · simp [standCount]
                    omega
            · simp only [listStandsAux, listStandsStep, hms, hb, hb2,
                if_false] at hok
              cases hok

/-- A member entry with distinct keys is what lookup finds. -/
theorem standLookup_of_mem (acc : List (String × Stand)) (k : String)
    (v : Stand) (hI2 : (standKeys acc).Nodup) (hmem : (k, v) ∈ acc) :
    standLookup acc k = some v := by
  induction acc with
  | nil => cases hmem
  | cons p rest ih =>
      rcases List.mem_cons.mp hmem with he | htail
      · rw [← he]
        exact standLookup_cons_self (k, v) rest k rfl
      · have hpk : p.1 ≠ k := by
          intro he
          have hk : k ∈ standKeys rest :=
            List.mem_map.mpr ⟨(k, v), htail, rfl⟩
          exact (List.nodup_cons.mp hI2).1 (he ▸ hk)
        rw [standLookup_cons_ne p rest k hpk]
        exact ih (List.nodup_cons.mp hI2).2 htail

/-- The upserted entry itself is in the upserted accumulator. -/
theorem mem_standUpsert_self (acc : List (String × Stand)) (k : String)
    (v : Stand) : (k, v) ∈ standUpsert acc k v := by
  unfold standUpsert
  split
  · rename_i hany
    obtain ⟨p, hp, hpk⟩ := List.any_eq_true.mp hany
    refine List.mem_map.mpr ⟨p, hp, ?_⟩
    rw [if_pos hpk]
  · exact List.mem_append.mpr (Or.inr (List.mem_singleton.mpr rfl))

/-- Entries with a different key survive an upsert untouched. -/
theorem mem_standUpsert_of_ne (acc : List (String × Stand)) (k : String)
    (v : Stand) (p : String × Stand) (hp : p ∈ acc) (hne : p.1 ≠ k) :
    p ∈ standUpsert acc k v := by
  unfold standUpsert
  split
  · refine List.mem_map.mpr ⟨p, hp, ?_⟩
    rw [if_neg (by simpa using hne)]
  · exact List.mem_append.mpr (Or.inl hp)

/-- Placement invariant of the discovery loop: entries only ever grow (every
node already placed under a key is still under that key at the end), and
each processed tagged domain's decoded node ends up in the accumulator
entry keyed by its stand-name tag. -/
theorem listStandsAux_placement (ds : List Domain) :
    ∀ (acc res : List (String × Stand)),
    listStandsAux ds acc = .ok res →
    (standKeys acc).Nodup →
    (∀ p ∈ acc, ∃ st', (p.1, st') ∈ res ∧
      (∀ n ∈ p.2.bootstraps, n ∈ st'.bootstraps) ∧
      (∀ n ∈ p.2.baremetals, n ∈ st'.baremetals)) ∧
    (∀ d ∈ ds, ∀ t, metaStand d.tags = some t →
      ∃ st', (t, st') ∈ res ∧ ∃ n, domain2node d = .ok n ∧
        (n ∈ st'.bootstraps ∨ n ∈ st'.baremetals)) := by
  induction ds with
  | nil =>
      intro acc res hok hI2
      have hae : acc = res := by
        simpa [listStandsAux] using hok
      subst hae
      exact ⟨fun p hp => ⟨p.2, hp, fun n hn => hn, fun n hn => hn⟩, by simp⟩
  | cons d rest ih =>
      intro acc res hok hI2
      cases hms : metaStand d.tags with
      | none =>
          have hstep : listStandsStep acc d = .ok acc := by
            simp [listStandsStep, hms]
          simp only [listStandsAux, hstep] at hok
          obtain ⟨M, P⟩ := ih acc res hok hI2
          refine ⟨M, ?_⟩
          intro d' hd' t' ht'
          rcases List.mem_cons.mp hd' with he | hmem
          · subst he; rw [hms] at ht'; cases ht'
          · exact P d' hmem t' ht'
      | some t =>
          have hcontinue : ∀ (st' : Stand) (n : Node),
              domain2node d = .ok n →
              (∀ m ∈ ((standLookup acc t).getD (Stand.empty_stand t)).bootstraps,
                m ∈ st'.bootstraps) →
              (∀ m ∈ ((standLookup acc t).getD (Stand.empty_stand t)).baremetals,
                m ∈ st'.baremetals) →
              (n ∈ st'.bootstraps ∨ n ∈ st'.baremetals) →
              listStandsAux rest (standUpsert acc t st') = .ok res →
              (∀ p ∈ acc, ∃ st'', (p.1, st'') ∈ res ∧
                (∀ m ∈ p.2.bootstraps, m ∈ st''.bootstraps) ∧
                (∀ m ∈ p.2.baremetals, m ∈ st''.baremetals)) ∧
              (∀ d' ∈ d :: rest, ∀ t', metaStand d'.tags = some t' →
                ∃ st'', (t', st'') ∈ res ∧ ∃ n', domain2node d' = .ok n' ∧
                  (n' ∈ st''.bootstraps ∨ n' ∈ st''.baremetals)) := by
            intro st' n hdn hsupb hsupm hnin hrest
            have hI2' : (standKeys (standUpsert acc t st')).Nodup := by
              by_cases hmem : t ∈ standKeys acc
              · rw [standKeys_upsert_mem acc t st' hmem]; exact hI2
              · rw [standKeys_upsert_not_mem acc t st' hmem]
                exact List.nodup_append.mpr
                  ⟨hI2, List.nodup_singleton t, by simpa using hmem⟩
            obtain ⟨M', P'⟩ := ih (standUpsert acc t st') res hrest hI2'
            constructor
            · intro p hp
              by_cases hpt : p.1 = t
              · have hlk : standLookup acc t = some p.2 := by
                  rw [← hpt]
                  exact standLookup_of_mem acc p.1 p.2 hI2 hp
                simp only [hlk, Option.getD_some] at hsupb hsupm
                obtain ⟨st'', hmem'', hb'', hm''⟩ :=
                  M' (t, st') (mem_standUpsert_self acc t st')
                refine ⟨st'', by rw [hpt]; exact hmem'', ?_, ?_⟩
                · exact fun m hm => hb'' m (hsupb m hm)
                · exact fun m hm => hm'' m (hsupm m hm)
              · exact M' p (mem_standUpsert_of_ne acc t st' p hp hpt)
            · intro d' hd' t' ht'
              rcases List.mem_cons.mp hd' with he | hmem
              · subst he
                rw [hms] at ht'
                injection ht' with hte
                subst hte
                obtain ⟨st'', hmem'', hb'', hm''⟩ :=
                  M' (t, st') (mem_standUpsert_self acc t st')
                refine ⟨st'', hmem'', n, hdn, ?_⟩
                rcases hnin with hn | hn
                · exact Or.inl (hb'' n hn)
                · exact Or.inr (hm'' n hn)
              · exact P' d' hmem t' ht'
          by_cases hb : metaNodeType d.tags = some "bootstrap"
          · cases hdn : domain2node d with
            | error e =>
                simp only [listStandsAux, listStandsStep, hms, hb, if_true,
                  hdn] at hok
                cases hok
            | ok n =>
                cases hen : extract_net_from_bootstrap d with
                | error e =>
                    simp only [listStandsAux, listStandsStep, hms, hb, if_true,
                      hdn, hen] at hok
                    cases hok
                | ok net =>
                    simp only [listStandsAux, listStandsStep, hms, hb, if_true,
                      hdn, hen] at hok
                    refine hcontinue _ n hdn ?_ ?_ ?_ hok
                    · exact fun m hm => List.mem_append_left _ hm
                    · exact fun m hm => hm
                    · exact Or.inl (List.mem_append_right _
                        (List.mem_singleton.mpr rfl))
          · by_cases hb2 : metaNodeType d.tags = some "baremetal"
            · cases hdn : domain2node d with
              | error e =>
                  simp only [listStandsAux, listStandsStep, hms, hb, hb2,
                    if_false, if_true, hdn] at hok
                  cases hok
              | ok n =>
                  simp only [listStandsAux, listStandsStep, hms, hb, hb2,
                    if_false, if_true, hdn] at hok
                  refine hcontinue _ n hdn ?_ ?_ ?_ hok
                  · exact fun m hm => hm
                  · exact fun m hm => List.mem_append_left _ hm
                  · exact Or.inr (List.mem_append_right _
                      (List.mem_singleton.mpr rfl))
            · simp only [listStandsAux, listStandsStep, hms, hb, hb2,
                if_false] at hok
              cases hok

/-- Claim C10: on any host whose discovery succeeds, the returned stands
have pairwise-distinct names; every domain carrying a stand-name tag is
placed in exactly one returned stand, namely the one keyed by its tag: its
decoded node is a member of that stand's bootstraps or baremetals
(uniqueness by the distinctness of names); and the total number of nodes
across the returned stands equals the number of tagged domains — grouping
is a partition of the tagged domains by stand name. -/
theorem C10_partition (h : HState) (l : List Stand)
    (hok : list_stands h = .ok l) :
    (l.map Stand.name).Nodup ∧
    (∀ d ∈ h.domains, ∀ t, metaStand d.tags = some t →
      ∃ st ∈ l, st.name = t ∧ ∃ n, domain2node d = .ok n ∧
        (n ∈ st.bootstraps ∨ n ∈ st.baremetals)) ∧
    (l.map standCount).sum = taggedCount h.domains := by
  unfold list_stands at hok
  cases hres : listStandsAux h.domains [] with
  | error e => rw [hres] at hok; cases hok
  | ok res =>
      rw [hres] at hok
      have hl : l = res.map Prod.snd := by
        simpa [Except.map] using hok.symm
      obtain ⟨a1, a2, a3, _, _, _⟩ :=
        listStandsAux_inv h.domains [] res hres (by simp) (by simp [standKeys])
      obtain ⟨_, P⟩ :=
        listStandsAux_placement h.domains [] res hres (by simp [standKeys])
      have hnames : l.map Stand.name = standKeys res := by
        rw [hl, List.map_map]
        exact List.map_congr_left (fun p hp => a1 p hp)
      refine ⟨?_, ?_, ?_⟩
      · rw [hnames]; exact a2
      · intro d hd t ht
        obtain ⟨st', hmem, n, hdn, hplace⟩ := P d hd t ht
        exact ⟨st', hl ▸ List.mem_map.mpr ⟨(t, st'), hmem, rfl⟩,
          a1 (t, st') hmem, n, hdn, hplace⟩
      · have hsum : (l.map standCount).sum = accCount res := by
          rw [hl, List.map_map]; rfl
        rw [hsum, a3]
        simp [accCount]

/-- Claim C10 witness: the partition property evaluated on host `h10` (two
tagged stands plus an untagged user VM): distinct names, and the baremetal
domain `domA` (tagged `stA`) has its decoded node placed in the returned
stand named `stA`. -/
theorem C10_partition_witness :
    ((List.map Stand.name
        [{ network := Network.dummy,
           bootstraps := [],
           baremetals := [{ name := "a1", memory := 1, cores := 1, disks := [],
                            image := none },
                          { name := "a2", memory := 2, cores := 2, disks := [],
                            image := none }],
           name := "stA" },
         { network := Network.dummy,
           bootstraps := [],
           baremetals := [{ name := "bdom", memory := 1, cores := 1, disks := [],
                            image := none }],
           name := "stB" }]).Nodup) ∧
    (∃ st ∈
        ([{ network := Network.dummy,
            bootstraps := [],
            baremetals := [{ name := "a1", memory := 1, cores := 1, disks := [],
                             image := none },
                           { name := "a2", memory := 2, cores := 2, disks := [],
                             image := none }],
            name := "stA" },
          { network := Network.dummy,
            bootstraps := [],
            baremetals := [{ name := "bdom", memory := 1, cores := 1, disks := [],
                             image := none }],
            name := "stB" }] : List Stand),
      st.name = "stA" ∧ ∃ n, domain2node domA = .ok n ∧
        (n ∈ st.bootstraps ∨ n ∈ st.baremetals)) := by
  have hok : list_stands h10 = .ok
      [{ network := Network.dummy,
         bootstraps := [],
         baremetals := [{ name := "a1", memory := 1, cores := 1, disks := [],
                          image := none },
                        { name := "a2", memory := 2, cores := 2, disks := [],
                          image := none }],
         name := "stA" },
       { network := Network.dummy,
         bootstraps := [],
         baremetals := [{ name := "bdom", memory := 1, cores := 1, disks := [],
                          image := none }],
         name := "stB" }] := rfl
  exact ⟨(C10_partition h10 _ hok).1,
    (C10_partition h10 _ hok).2.1 domA (List.mem_cons_self _ _) "stA" rfl⟩

/-- The short-circuit existence probe reports no conflict when every node
name is fresh. -/
theorem hasDomainProbe_false (h : HState) :
    ∀ ns : List Node, (∀ n ∈ ns, has_domain h n.name = false) →
    ∃ t, hasDomainProbe h ns = (t, false) := by
  intro ns
  induction ns with
  | nil => intro _; exact ⟨[], rfl⟩
  | cons n rest ih =>
      intro hf
      obtain ⟨t, ht⟩ := ih (fun m hm => hf m (List.mem_cons_of_mem n hm))
      refine ⟨("has_domain " ++ n.name) :: t, ?_⟩
      unfold hasDomainProbe
      rw [hf n (List.mem_cons_self n rest), if_neg (by simp), ht]

/-- The broken conflict check: `has_net(stand.network)` never reports a
conflict, whatever the host's networks are. -/
theorem has_net_obj_false (h : HState) (net : Network) :
    has_net_obj h net = false := by
  simp [has_net_obj, pyEqNetworkStr]

/-- `netDefine` only touches the network list. -/
theorem netDefine_proj (h : HState) (nd : NetDescr) :
    (netDefine h nd).domains = h.domains ∧
    (netDefine h nd).activeDoms = h.activeDoms ∧
    (netDefine h nd).activeNets = h.activeNets ∧
    (netDefine h nd).poolFiles = h.poolFiles := by
  unfold netDefine; split <;> exact ⟨rfl, rfl, rfl, rfl⟩

/-- `netAutostart` only touches the autostart list. -/
theorem netAutostart_proj (h : HState) (name : String) :
    (netAutostart h name).domains = h.domains ∧
    (netAutostart h name).activeDoms = h.activeDoms ∧
    (netAutostart h name).poolFiles = h.poolFiles := by
  unfold netAutostart; split <;> exact ⟨rfl, rfl, rfl⟩

/-- A successful managed-network creation: the defined/active domains are
untouched. -/
theorem create_nat_network_ok (name : String) (cidr : Ipv4Net) (dh : Bool)
    (h : HState) (hsize : 100 < cidr.size)
    (hact : h.activeNets.contains name = false) :
    ∃ h1, create_nat_network name cidr dh h = (h1, none) ∧
      h1.domains = h.domains ∧ h1.activeDoms = h.activeDoms := by
  have h1lt : 1 < cidr.size := by omega
  have h10lt : 10 < cidr.size := by omega
  have hnd : ∃ nd : NetDescr, natNetDescr name cidr dh = .ok nd := by
    unfold natNetDescr cidrIndex
    simp only [h1lt, h10lt, hsize, if_true, bind, Except.bind, pure, Except.pure]
    cases dh
    · exact ⟨_, rfl⟩
    · exact ⟨_, rfl⟩
  obtain ⟨nd, hndeq⟩ := hnd
  obtain ⟨hdd, hda, hdn, hdp⟩ := netDefine_proj h nd
  have hstart : netStart (netDefine h nd) name =
      ({ netDefine h nd with
          activeNets := (netDefine h nd).activeNets ++ [name] }, true) := by
    unfold netStart
    rw [if_neg (by rw [hdn, hact]; simp)]
  unfold create_nat_network
  simp only [hndeq, hstart, if_true]
  refine ⟨_, rfl, ?_, ?_⟩
  · rw [(netAutostart_proj _ name).1]; exact hdd
  · rw [(netAutostart_proj _ name).2.1]; exact hda

/-- `virsh start` never changes the defined-domain list. -/
theorem startDomain_domains (env : Env) (h : HState) (name : String) :
    ((startDomain env h name).1).domains = h.domains := by
  unfold startDomain; split <;> rfl

/-- `rm -f` of disk files never changes the defined-domain list. -/
theorem foldl_rmFile_domains (paths : List String) :
    ∀ h : HState, (paths.foldl rmFile h).domains = h.domains := by
  induction paths with
  | nil => intro h; rfl
  | cons p rest ih => intro h; exact ih (rmFile h p)

/-- Defining a fresh domain appends it. -/
theorem defineDomain_fresh (h : HState) (dom : Domain)
    (hfresh : h.domains.any (fun x => x.name == dom.name) = false) :
    defineDomain h dom = { h with domains := h.domains ++ [dom] } := by
  unfold defineDomain
  rw [if_neg (by rw [hfresh]; simp)]

/-- A fresh-named `create_domain` with a workable provisioning mode and a
cooperating environment never errors and appends exactly one domain, whose
name and metadata tags are the requested ones (whether or not the final
`virsh start` succeeds). -/
theorem create_domain_defines (env : Env) (uuid name : String)
    (cores memory : Nat) (network net_type pool : String)
    (image : Option String) (disks : List Nat) (tags : List MetaTag)
    (boot : String) (h : HState)
    (hcp : ∀ p, env.cpOk p = true) (hqemu : ∀ p, env.qemuImgOk p = true)
    (hmode : image.isSome = true ∨ disks ≠ [])
    (hfresh : has_domain h name = false) :
    ∃ h' dom, create_domain env uuid name cores memory network net_type pool
        image disks tags boot h = (h', none) ∧
      h'.domains = h.domains ++ [dom] ∧
      dom.name = name ∧ dom.tags = tags := by
  cases image with
  | some img =>
      unfold create_domain
      simp only [hcp img, if_true]
      set dom : Domain :=
        { name := name, uuid := uuid, vcpu := cores, memoryKiB := memory * 1024,
          tags := tags,
          disks := [{ device := "vda",
                      file := pathJoin pool (basename img),
                      format := if strEndsWith (basename img) "qcow2"
                                then "qcow2" else "raw" }],
          boot := if boot == "hd" then .hd else .networkHd,
          ifaceType := if net_type == "network" then "network" else "bridge",
          ifaceSource := network } with hdomdef
      have hdefine : defineDomain (addFile h (pathJoin pool (basename img))) dom
          = { addFile h (pathJoin pool (basename img)) with
              domains := h.domains ++ [dom] } := by
        rw [defineDomain_fresh _ dom (by
          rw [addFile_domains]
          simpa [has_domain] using hfresh)]
        rw [addFile_domains]
      rw [hdefine]
      cases hsd : startDomain env
          { addFile h (pathJoin pool (basename img)) with
            domains := h.domains ++ [dom] } name with
      | mk h3 ok =>
          have hd3 : h3.domains = h.domains ++ [dom] := by
            have := congrArg (fun r => r.1.domains) hsd
            simp only at this
            rw [← this, startDomain_domains]
          cases ok
          · exact ⟨h3, dom, rfl, hd3, rfl, rfl⟩
          · exact ⟨h3, dom, rfl, hd3, rfl, rfl⟩
  | none =>
      have hne : disks ≠ [] := by
        rcases hmode with himg | hne
        · cases himg
        · exact hne
      cases disks with
      | nil => exact absurd rfl hne
      | cons d0 drest =>
          obtain ⟨h1, entries, heq, hdom1, _⟩ :=
            allocDisks_ok env pool uuid (d0 :: drest) 0 h
              (fun j _ => hqemu (diskPath pool uuid (0 + j)))
          unfold create_domain
          simp only [List.isEmpty_cons, heq]
          set dom : Domain :=
            { name := name, uuid := uuid, vcpu := cores,
              memoryKiB := memory * 1024, tags := tags, disks := entries,
              boot := if boot == "hd" then .hd else .networkHd,
              ifaceType := if net_type == "network" then "network" else "bridge",
              ifaceSource := network } with hdomdef
          have hdefine : defineDomain h1 dom
              = { h1 with domains := h.domains ++ [dom] } := by
            rw [defineDomain_fresh h1 dom (by
              rw [hdom1]
              simpa [has_domain] using hfresh)]
            rw [hdom1]
          rw [hdefine]
          cases hsd : startDomain env
              { h1 with domains := h.domains ++ [dom] } name with
          | mk h3 ok =>
              have hd3 : h3.domains = h.domains ++ [dom] := by
                have := congrArg (fun r => r.1.domains) hsd
                simp only at this
                rw [← this, startDomain_domains]
              cases ok
              · exact ⟨_, dom, rfl, by rw [foldl_rmFile_domains]; exact hd3,
                  rfl, rfl⟩
              · exact ⟨h3, dom, rfl, hd3, rfl, rfl⟩

/-- One fresh-named bootstrap creation succeeds and appends one domain with
the bootstrap tags. -/
theorem createBootstraps_single (env : Env) (s : Stand) (b : Node) (idx : Nat)
    (h : HState)
    (hcp : ∀ p, env.cpOk p = true) (hqemu : ∀ p, env.qemuImgOk p = true)
    (himg : b.image.isSome = true) (hfresh : has_domain h b.name = false) :
    ∃ h' t dom, createBootstraps env s [b] idx h = (h', t, none) ∧
      h'.domains = h.domains ++ [dom] ∧
      dom.name = b.name ∧ dom.tags = bootstrapTags s b := by
  obtain ⟨h1, dom, heq, hdoms, hname, htags⟩ :=
    create_domain_defines env (env.uuid idx) b.name b.cores b.memory
      s.network.name (netTypeStr s.network) LIBVIRT_DEF_POOL_PATH
      b.image [] (bootstrapTags s b) "hd" h hcp hqemu (Or.inl himg) hfresh
  refine ⟨h1, [("create_domain " ++ b.name)], dom, ?_, hdoms, hname, htags⟩
  unfold createBootstraps
  rw [heq]
  rfl

/-- Creating a list of fresh, pairwise-distinctly-named baremetal nodes
succeeds and appends one domain per node, carrying that node's baremetal
tags. -/
theorem createBaremetals_ok (env : Env) (s : Stand)
    (hcp : ∀ p, env.cpOk p = true) (hqemu : ∀ p, env.qemuImgOk p = true)
    (ns : List Node) :
    ∀ (idx : Nat) (h : HState),
    (∀ n ∈ ns, n.image.isSome = true ∨ n.disks ≠ []) →
    (∀ n ∈ ns, has_domain h n.name = false) →
    (ns.map Node.name).Nodup →
    ∃ h' t doms, createBaremetals env s ns idx h = (h', t, none) ∧
      h'.domains = h.domains ++ doms ∧
      List.Forall₂ (fun (dom : Domain) (n : Node) =>
        dom.name = n.name ∧ dom.tags = baremetalTags s n) doms ns := by
  induction ns with
  | nil =>
      intro idx h _ _ _
      exact ⟨h, [], [], rfl, by simp, List.Forall₂.nil⟩
  | cons n rest ih =>
      intro idx h hmode hfresh hnodup
      obtain ⟨h1, dom, heq, hdoms, hname, htags⟩ :=
        create_domain_defines env (env.uuid idx) n.name n.cores n.memory
          s.network.name (netTypeStr s.network) LIBVIRT_DEF_POOL_PATH
          n.image n.disks (baremetalTags s n) "network" h hcp hqemu
          (hmode n (List.mem_cons_self n rest))
          (hfresh n (List.mem_cons_self n rest))
      have hnn : n.name ∉ rest.map Node.name := (List.nodup_cons.mp hnodup).1
      have hfresh1 : ∀ m ∈ rest, has_domain h1 m.name = false := by
        intro m hm
        have hne : (dom.name == m.name) = false := by
          rw [hname]
          refine beq_eq_false_iff_ne.mpr ?_
          intro he
          exact hnn (he ▸ List.mem_map.mpr ⟨m, hm, rfl⟩)
        unfold has_domain
        rw [hdoms]
        simp only [List.any_append, List.any_cons, List.any_nil, hne]
        have := hfresh m (List.mem_cons_of_mem n hm)
        unfold has_domain at this
        rw [this]
        rfl
      obtain ⟨h2, t2, doms2, heq2, hdoms2, hf2⟩ :=
        ih (idx + 1) h1
          (fun m hm => hmode m (List.mem_cons_of_mem n hm))
          hfresh1 (List.nodup_cons.mp hnodup).2
      refine ⟨h2, ("create_domain " ++ n.name) :: t2, dom :: doms2, ?_, ?_,
        List.Forall₂.cons ⟨hname, htags⟩ hf2⟩
      · unfold createBaremetals
        simp only [heq, heq2]
      · rw [hdoms2, hdoms, List.append_assoc]
        rfl

/-- Lookup of an absent key. -/
theorem standLookup_eq_none (acc : List (String × Stand)) (k : String)
    (hk : k ∉ standKeys acc) : standLookup acc k = none := by
  unfold standLookup
  cases hf : acc.find? (fun p => p.1 == k) with
  | none => rfl
  | some p =>
      exfalso
      have hmem := List.mem_of_find?_eq_some hf
      have hpk := List.find?_some hf
      simp only [beq_iff_eq] at hpk
      exact hk (hpk ▸ List.mem_map.mpr ⟨p, hmem, rfl⟩)

/-- Upserting an absent key appends the entry. -/
theorem standUpsert_not_mem_eq (acc : List (String × Stand)) (k : String)
    (v : Stand) (hk : k ∉ standKeys acc) :
    standUpsert acc k v = acc ++ [(k, v)] := by
  unfold standUpsert
  rw [if_neg (fun hc => hk ((any_key_iff acc k).mp hc))]

/-- Lookup of the last entry when its key is absent from the front. -/
theorem standLookup_append_last (acc : List (String × Stand)) (k : String)
    (st : Stand) (hk : k ∉ standKeys acc) :
    standLookup (acc ++ [(k, st)]) k = some st := by
  induction acc with
  | nil => simp [standLookup, List.find?_cons_of_pos]
  | cons p rest ih =>
      have hpk : p.1 ≠ k := by
        intro he
        exact hk (he ▸ List.mem_map.mpr ⟨p, List.mem_cons_self p rest, rfl⟩)
      rw [List.cons_append, standLookup_cons_ne p _ k hpk]
      exact ih (fun hmem => hk (List.mem_cons_of_mem _ hmem))

/-- Upserting the last entry's key when it is absent from the front. -/
theorem standUpsert_append_last (acc : List (String × Stand)) (k : String)
    (st v : Stand) (hk : k ∉ standKeys acc) :
    standUpsert (acc ++ [(k, st)]) k v = acc ++ [(k, v)] := by
  unfold standUpsert
  rw [if_pos (by
    refine (any_key_iff _ k).mpr ?_
    simp [standKeys])]
  rw [List.map_append, map_upsert_skip acc k v hk]
  simp

/-- The discovery loop distributes over list append. -/
theorem listStandsAux_append (xs ys : List Domain) :
    ∀ acc, listStandsAux (xs ++ ys) acc =
      (listStandsAux xs acc).bind (fun acc' => listStandsAux ys acc') := by
  induction xs with
  | nil => intro acc; simp [listStandsAux, Except.bind]
  | cons d rest ih =>
      intro acc
      simp only [List.cons_append, listStandsAux]
      cases hstep : listStandsStep acc d with
      | ok acc' => exact ih acc'
      | error e => rfl

/-- Decoding the domain `create_stand` synthesizes for a bootstrap. -/
theorem decode_bootstrap_dom (s : Stand) (b : Node) (dom : Domain)
    (hname : dom.name = b.name) (htags : dom.tags = bootstrapTags s b) :
    metaStand dom.tags = some s.name ∧
    metaNodeType dom.tags = some "bootstrap" ∧
    domain2node dom = .ok (reconBootstrap b) ∧
    extract_net_from_bootstrap dom = .ok s.network := by
  refine ⟨by rw [htags]; rfl, by rw [htags]; rfl, ?_, ?_⟩
  · unfold domain2node
    rw [htags, hname]
    rfl
  · unfold extract_net_from_bootstrap
    rw [htags]
    show Except.ok
        { name := s.network.name, cidr := s.network.cidr,
          managed_network :=
            decide ((if s.network.managed_network then 1 else 0) ≠ 0),
          dhcp := decide ((if s.network.dhcp then 1 else 0) ≠ 0) } =
      Except.ok s.network
    rcases hn : s.network with ⟨nn, nc, nd, nm⟩
    cases nd <;> cases nm <;> rfl

/-- Decoding the domain `create_stand` synthesizes for a baremetal node. -/
theorem decode_baremetal_dom (s : Stand) (n : Node) (dom : Domain)
    (hname : dom.name = n.name) (htags : dom.tags = baremetalTags s n) :
    metaStand dom.tags = some s.name ∧
    metaNodeType dom.tags = some "baremetal" ∧
    domain2node dom = .ok (reconBaremetal n) := by
  refine ⟨by rw [htags]; rfl, by rw [htags]; rfl, ?_⟩
  unfold domain2node
  rw [htags, hname]
  rfl

/-- Processing the synthesized baremetal domains extends the stand that sits
at the end of the accumulator, one decoded node per domain. -/
theorem listStandsAux_extend_last (s : Stand) (bms : List Node)
    (doms : List Domain)
    (hf : List.Forall₂ (fun (dom : Domain) (n : Node) =>
      dom.name = n.name ∧ dom.tags = baremetalTags s n) doms bms) :
    ∀ (acc : List (String × Stand)) (st : Stand), s.name ∉ standKeys acc →
    listStandsAux doms (acc ++ [(s.name, st)]) =
      .ok (acc ++ [(s.name,
        { st with baremetals := st.baremetals ++ bms.map reconBaremetal })]) := by
  induction hf with
  | nil =>
      intro acc st _
      simp [listStandsAux]
  | cons hdm htl ih =>
      rename_i dom n restd restn
      intro acc st hkey
      obtain ⟨hms, hnt, hdn⟩ := decode_baremetal_dom s n dom hdm.1 hdm.2
      have hstep : listStandsStep (acc ++ [(s.name, st)]) dom =
          .ok (acc ++ [(s.name,
            { st with baremetals := st.baremetals ++ [reconBaremetal n] })]) := by
        unfold listStandsStep
        simp only [hms, hnt, standLookup_append_last acc s.name st hkey,
          Option.getD_some, hdn, if_true]
        rw [if_neg (by decide)]
        rw [standUpsert_append_last acc s.name st _ hkey]
      show listStandsAux (dom :: restd) (acc ++ [(s.name, st)]) = _
      unfold listStandsAux
      simp only [hstep]
      rw [ih acc _ hkey]
      simp [List.append_assoc]

/-- The create/list round trip, in full: under the stated sanity conditions
`create_stand` completes without error and a subsequent `list_stands`
returns exactly the stands previously on the host followed by the
reconstruction of `s` (same name and network; nodes with the disks — and,
for baremetals, the image — dropped, since those are not persisted in
metadata). -/
theorem create_list_master (env : Env) (s : Stand) (b : Node) (h : HState)
    (oldAssoc : List (String × Stand))
    (hb : s.bootstraps = [b])
    (hv : s.is_valid = true)
    (hnodup : ((s.bootstraps ++ s.baremetals).map Node.name).Nodup)
    (hfresh : ∀ n ∈ s.bootstraps ++ s.baremetals, has_domain h n.name = false)
    (htag : ∀ d ∈ h.domains, metaStand d.tags ≠ some s.name)
    (hold : listStandsAux h.domains [] = .ok oldAssoc)
    (hnact : s.network.managed_network = true →
      h.activeNets.contains s.network.name = false)
    (hnsize : s.network.managed_network = true → 100 < s.network.cidr.size)
    (hbm : ∀ n ∈ s.baremetals, n.image.isSome = true ∨ n.disks ≠ [])
    (hcp : ∀ p, env.cpOk p = true) (hqemu : ∀ p, env.qemuImgOk p = true) :
    (create_stand env s h).2.2 = none ∧
    list_stands (create_stand env s h).1 =
      .ok (oldAssoc.map Prod.snd ++ [reconStand s]) := by
  -- the bootstrap carries an image (validity with a single bootstrap)
  have himg : b.image.isSome = true := by
    unfold Stand.is_valid at hv
    rw [hb] at hv
    split at hv
    · cases hv
    · split at hv
      · cases hv
      · rename_i hcond
        simp only [List.all_cons, List.all_nil, Bool.and_true] at hcond
        cases hi : b.image with
        | none => rw [hi] at hcond; simp at hcond
        | some v => rfl
  -- names involved
  have hfreshb : has_domain h b.name = false :=
    hfresh b (by rw [hb]; exact List.mem_append_left _ (List.mem_cons_self b []))
  have hnn : b.name ∉ s.baremetals.map Node.name := by
    have := hnodup
    rw [hb] at this
    simp only [List.singleton_append, List.map_cons, List.nodup_cons] at this
    exact this.1
  -- reduce create_stand to the three creation phases
  have hlen : ¬ (s.bootstraps.length > 1) := by rw [hb]; simp
  obtain ⟨pt, hprobe⟩ := hasDomainProbe_false h (s.bootstraps ++ s.baremetals) hfresh
  have hnet : ∃ h1,
      (if s.network.managed_network then
        create_nat_network s.network.name s.network.cidr s.network.dhcp h
      else (h, none)) = (h1, none) ∧ h1.domains = h.domains := by
    by_cases hman : s.network.managed_network = true
    · rw [if_pos hman]
      obtain ⟨h1, heq, hd, _⟩ :=
        create_nat_network_ok s.network.name s.network.cidr s.network.dhcp h
          (hnsize hman) (hnact hman)
      exact ⟨h1, heq, hd⟩
    · rw [if_neg hman]
      exact ⟨h, rfl, rfl⟩
  obtain ⟨h1, hneq, hn1⟩ := hnet
  have hfreshb1 : has_domain h1 b.name = false := by
    unfold has_domain at hfreshb ⊢
    rw [hn1]
    exact hfreshb
  obtain ⟨h2, t2, bdom, heq2, hdoms2, hbname, hbtags⟩ :=
    createBootstraps_single env s b 0 h1 hcp hqemu himg hfreshb1
  have hfresh2 : ∀ n ∈ s.baremetals, has_domain h2 n.name = false := by
    intro n hn
    have hne : (bdom.name == n.name) = false := by
      rw [hbname]
      refine beq_eq_false_iff_ne.mpr ?_
      intro he
      exact hnn (he ▸ List.mem_map.mpr ⟨n, hn, rfl⟩)
    unfold has_domain
    rw [hdoms2, hn1]
    simp only [List.any_append, List.any_cons, List.any_nil, hne]
    have := hfresh n (List.mem_append_right _ hn)
    unfold has_domain at this
    rw [this]
    rfl
  have hnodup2 : (s.baremetals.map Node.name).Nodup := by
    have := hnodup
    rw [hb] at this
    simp only [List.singleton_append, List.map_cons, List.nodup_cons] at this
    exact this.2
  obtain ⟨h3, t3, bmdoms, heq3, hdoms3, hf3⟩ :=
    createBaremetals_ok env s hcp hqemu s.baremetals ([b].length) h2
      hbm hfresh2 hnodup2
  have hcreate : create_stand env s h = (h3, (pt ++
      (if s.network.managed_network then ["has_net"] else []) ++
      (if s.network.managed_network then ["create_nat_network"] else []))
      ++ t2 ++ t3, none) := by
    unfold create_stand
    rw [if_neg hlen]
    rw [hv]
    simp only [Bool.not_true, if_false, hprobe, has_net_obj_false,
      Bool.and_false, hneq]
    rw [hb]
    simp only [heq2, heq3, Bool.false_eq_true, if_false]
  -- the new domain list
  have hdall : h3.domains = h.domains ++ ([bdom] ++ bmdoms) := by
    rw [hdoms3, hdoms2, hn1, List.append_assoc]
  -- key freshness against the pre-existing stands
  have hkeyfresh : s.name ∉ standKeys oldAssoc := by
    intro hk
    obtain ⟨_, _, _, _, _, a6⟩ :=
      listStandsAux_inv h.domains [] oldAssoc hold (by simp) (by simp [standKeys])
    rcases a6 s.name hk with hempty | ⟨d, hd, ht⟩
    · simp [standKeys] at hempty
    · exact htag d hd ht
  -- decode the bootstrap domain
  obtain ⟨hms, hnt, hdn, hen⟩ := decode_bootstrap_dom s b bdom hbname hbtags
  have hstep : listStandsStep oldAssoc bdom =
      .ok (oldAssoc ++ [(s.name,
        { network := s.network, bootstraps := [reconBootstrap b],
          baremetals := [], name := s.name })]) := by
    unfold listStandsStep
    simp only [hms, hnt, standLookup_eq_none oldAssoc s.name hkeyfresh,
      Option.getD_none, hdn, hen, if_true]
    rw [standUpsert_not_mem_eq oldAssoc s.name _ hkeyfresh]
    rfl
  refine ⟨by rw [hcreate], ?_⟩
  rw [hcreate]
  show list_stands h3 = _
  unfold list_stands
  rw [hdall, listStandsAux_append, hold]
  show (listStandsAux ([bdom] ++ bmdoms) oldAssoc).map _ = _
  rw [listStandsAux_append]
  have hone : listStandsAux [bdom] oldAssoc =
      .ok (oldAssoc ++ [(s.name,
        { network := s.network, bootstraps := [reconBootstrap b],
          baremetals := [], name := s.name })]) := by
    unfold listStandsAux
    rw [hstep]
    rfl
  rw [hone]
  show (listStandsAux bmdoms _).map _ = _
  rw [listStandsAux_extend_last s s.baremetals bmdoms hf3 oldAssoc _ hkeyfresh]
  unfold reconStand
  rw [hb]
  simp [Except.map]

/-- Claim C1 counterexample: `s2` is a VALID stand (two bootstraps, both
with images) and none of its domain names exist on the empty hypervisor,
yet `create_stand` raises `NotImplementedError` and the subsequent
`list_stands` returns no stand at all — in particular none matching `s2`. -/
theorem C1_counterexample :
    s2.is_valid = true ∧
    (∀ n ∈ s2.bootstraps ++ s2.baremetals, has_domain h0 n.name = false) ∧
    (create_stand env0 s2 h0).2.2 =
      some (.notImplemented "Multiple bootstraps are not supported yet") ∧
    list_stands (create_stand env0 s2 h0).1 = .ok [] :=
  ⟨rfl, fun _ _ => rfl, rfl, rfl⟩

/-- Claim C1 (amended): for a valid stand with exactly one bootstrap,
pairwise-distinct node names, baremetals that each have an image or disks,
fresh domain names, no pre-existing domain tagged with the stand's name, a
listable pre-state, a managed network that is not already active and whose
CIDR holds more than 100 addresses, and an environment whose copy and
disk-allocation commands succeed: `create_stand(s)` followed by
`list_stands()` yields a stand whose name, bootstrap count, baremetal
count, and network CIDR, DHCP flag and managed flag all equal those of
`s`. -/
theorem C1_roundtrip (env : Env) (s : Stand) (b : Node) (h : HState)
    (hb : s.bootstraps = [b])
    (hv : s.is_valid = true)
    (hnodup : ((s.bootstraps ++ s.baremetals).map Node.name).Nodup)
    (hfresh : ∀ n ∈ s.bootstraps ++ s.baremetals, has_domain h n.name = false)
    (htag : ∀ d ∈ h.domains, metaStand d.tags ≠ some s.name)
    (hold : ∃ l0, list_stands h = .ok l0)
    (hnact : s.network.managed_network = true →
      h.activeNets.contains s.network.name = false)
    (hnsize : s.network.managed_network = true → 100 < s.network.cidr.size)
    (hbm : ∀ n ∈ s.baremetals, n.image.isSome = true ∨ n.disks ≠ [])
    (hcp : ∀ p, env.cpOk p = true) (hqemu : ∀ p, env.qemuImgOk p = true) :
    ∃ l, list_stands (create_stand env s h).1 = .ok l ∧
      ∃ st ∈ l, st.name = s.name ∧
        st.bootstraps.length = s.bootstraps.length ∧
        st.baremetals.length = s.baremetals.length ∧
        st.network.cidr = s.network.cidr ∧
        st.network.dhcp = s.network.dhcp ∧
        st.network.managed_network = s.network.managed_network := by
  obtain ⟨l0, hl0⟩ := hold
  unfold list_stands at hl0
  cases hres : listStandsAux h.domains [] with
  | error e => rw [hres] at hl0; cases hl0
  | ok oldAssoc =>
      obtain ⟨-, hmaster⟩ :=
        create_list_master env s b h oldAssoc hb hv hnodup hfresh htag hres
          hnact hnsize hbm hcp hqemu
      refine ⟨_, hmaster, reconStand s,
        List.mem_append_right _ (List.mem_cons_self _ _), rfl, ?_, ?_,
        rfl, rfl, rfl⟩
      · simp [reconStand]
      · simp [reconStand]

/-- Claim C1 (amended) witness: the round trip evaluated on the concrete
stand `s1` (one bootstrap with an image, one baremetal with two disks,
managed DHCP network 10.20.0.0/22) against the empty hypervisor. -/
theorem C1_roundtrip_witness :
    ∃ l, list_stands (create_stand env0 s1 h0).1 = .ok l ∧
      ∃ st ∈ l, st.name = s1.name ∧
        st.bootstraps.length = s1.bootstraps.length ∧
        st.baremetals.length = s1.baremetals.length ∧
        st.network.cidr = s1.network.cidr ∧
        st.network.dhcp = s1.network.dhcp ∧
        st.network.managed_network = s1.network.managed_network :=
  C1_roundtrip env0 s1 boot1 h0 rfl rfl (by decide) (fun _ _ => rfl)
    (fun d hd => absurd hd (List.not_mem_nil d)) ⟨[], rfl⟩
    (fun _ => rfl) (fun _ => by decide) (by decide)
    (fun _ => rfl) (fun _ => rfl)

/-- Claim C7 counterexample: the bootstrap of `s1` was created with
`disks=[10]`, but after `create_stand` and `list_stands` the reconstructed
stand is `reconStand s1`, whose bootstrap carries `disks=[]`: the metadata
does not suffice to reconstruct every field of the node, so the round trip
is not lossless. -/
theorem C7_counterexample :
    boot1.disks = [10] ∧
    list_stands (create_stand env0 s1 h0).1 = .ok [reconStand s1] ∧
    (reconStand s1).bootstraps.map Node.disks = [[]] ∧
    ((reconStand s1 == s1)) = false :=
  ⟨rfl, rfl, rfl, rfl⟩

/-- Claim C7 (amended): under the same conditions as the round-trip
theorem, reclassification after a restart recovers each node's name, cores
and memory, the stand membership, the full network, and the bootstrap's
image — but the reconstructed stand is exactly `reconStand s`: every node
comes back with `disks = []` and every baremetal with `image = none`,
because neither is written into the domain metadata. -/
theorem C7_reconstruction (env : Env) (s : Stand) (b : Node) (h : HState)
    (hb : s.bootstraps = [b])
    (hv : s.is_valid = true)
    (hnodup : ((s.bootstraps ++ s.baremetals).map Node.name).Nodup)
    (hfresh : ∀ n ∈ s.bootstraps ++ s.baremetals, has_domain h n.name = false)
    (htag : ∀ d ∈ h.domains, metaStand d.tags ≠ some s.name)
    (hold : ∃ l0, list_stands h = .ok l0)
    (hnact : s.network.managed_network = true →
      h.activeNets.contains s.network.name = false)
    (hnsize : s.network.managed_network = true → 100 < s.network.cidr.size)
    (hbm : ∀ n ∈ s.baremetals, n.image.isSome = true ∨ n.disks ≠ [])
    (hcp : ∀ p, env.cpOk p = true) (hqemu : ∀ p, env.qemuImgOk p = true) :
    (create_stand env s h).2.2 = none ∧
    ∃ l, list_stands (create_stand env s h).1 = .ok l ∧ reconStand s ∈ l := by
  obtain ⟨l0, hl0⟩ := hold
  unfold list_stands at hl0
  cases hres : listStandsAux h.domains [] with
  | error e => rw [hres] at hl0; cases hl0
  | ok oldAssoc =>
      obtain ⟨hnone, hmaster⟩ :=
        create_list_master env s b h oldAssoc hb hv hnodup hfresh htag hres
          hnact hnsize hbm hcp hqemu
      exact ⟨hnone, _, hmaster,
        List.mem_append_right _ (List.mem_cons_self _ _)⟩

/-- Claim C7 (amended) witness: the reconstruction evaluated on the
concrete stand `s3` (bridge network, bootstrap with a raw image, one
baremetal with one disk) against the empty hypervisor. -/
theorem C7_reconstruction_witness :
    (create_stand env0 s3 h0).2.2 = none ∧
    ∃ l, list_stands (create_stand env0 s3 h0).1 = .ok l ∧ reconStand s3 ∈ l :=
  C7_reconstruction env0 s3
    { name := "b3", memory := 512, cores := 1, disks := [],
      image := some "/img/os.raw" } h0 rfl rfl (by decide) (fun _ _ => rfl)
    (fun d hd => absurd hd (List.not_mem_nil d)) ⟨[], rfl⟩
    (fun hman => absurd hman (by decide)) (fun hman => absurd hman (by decide))
    (by decide) (fun _ => rfl) (fun _ => rfl)

end Genesis
